import Mathlib

/-!
Verification of the CPU path-tracing core of the flux renderer.

The Rust sources under src/src/raytrace (shape.rs, accelerator.rs, hit.rs,
integrator.rs, bsdf.rs, film.rs, scene.rs, mod.rs) and src/src/math
(ray.rs, color.rs, mod.rs) are shallowly embedded here.  f32 arithmetic is
idealized as real arithmetic; the f32 value INFINITY (used for ray.t_max
and Hit.t) is modelled with WithTop of the reals.  Rust panics
(todo, assert, out-of-bounds indexing) are modelled by Option / an
explicit result constructor.  The external bvh crate is not part of the
repository; its traverse and AABB operations are modelled from the spec
(a traversal yields exactly the candidates whose bounding box the ray
intersects, in list order).
-/

noncomputable section

open Classical

/-- A 3-component real vector, modelling glam Vec3 and Vec3A. -/
structure Vec3 where
  x : ℝ
  y : ℝ
  z : ℝ
deriving DecidableEq

/-- A 2-component real vector, modelling glam Vec2. -/
structure Vec2 where
  x : ℝ
  y : ℝ
deriving DecidableEq

namespace Vec3

instance : Add Vec3 := ⟨fun a b => ⟨a.x + b.x, a.y + b.y, a.z + b.z⟩⟩

instance : Sub Vec3 := ⟨fun a b => ⟨a.x - b.x, a.y - b.y, a.z - b.z⟩⟩

instance : Neg Vec3 := ⟨fun a => ⟨-a.x, -a.y, -a.z⟩⟩

instance : SMul ℝ Vec3 := ⟨fun k a => ⟨k * a.x, k * a.y, k * a.z⟩⟩

/-- The zero vector (glam Vec3A ZERO). -/
def zero : Vec3 := ⟨0, 0, 0⟩

/-- Dot product. -/
def dot (a b : Vec3) : ℝ := a.x * b.x + a.y * b.y + a.z * b.z

/-- Cross product. -/
def cross (a b : Vec3) : Vec3 :=
  ⟨a.y * b.z - a.z * b.y, a.z * b.x - a.x * b.z, a.x * b.y - a.y * b.x⟩

/-- Squared length. -/
def lengthSq (a : Vec3) : ℝ := dot a a

/-- Euclidean length. -/
def length (a : Vec3) : ℝ := Real.sqrt (lengthSq a)

/-- glam normalize: divide by the length.  (For the zero vector glam
produces NaN components; in this real-valued model division by zero
yields the zero vector.) -/
def normalize (a : Vec3) : Vec3 := (1 / length a) • a

/-- Componentwise minimum. -/
def minv (a b : Vec3) : Vec3 := ⟨min a.x b.x, min a.y b.y, min a.z b.z⟩

/-- Componentwise maximum. -/
def maxv (a b : Vec3) : Vec3 := ⟨max a.x b.x, max a.y b.y, max a.z b.z⟩

@[simp] theorem add_def (a b : Vec3) :
    a + b = ⟨a.x + b.x, a.y + b.y, a.z + b.z⟩ := rfl

@[simp] theorem sub_def (a b : Vec3) :
    a - b = ⟨a.x - b.x, a.y - b.y, a.z - b.z⟩ := rfl

@[simp] theorem neg_def (a : Vec3) : -a = ⟨-a.x, -a.y, -a.z⟩ := rfl

@[simp] theorem smul_def (k : ℝ) (a : Vec3) :
    k • a = ⟨k * a.x, k * a.y, k * a.z⟩ := rfl

end Vec3

namespace Vec2

instance : Add Vec2 := ⟨fun a b => ⟨a.x + b.x, a.y + b.y⟩⟩

instance : Sub Vec2 := ⟨fun a b => ⟨a.x - b.x, a.y - b.y⟩⟩

instance : SMul ℝ Vec2 := ⟨fun k a => ⟨k * a.x, k * a.y⟩⟩

/-- The zero vector (glam Vec2 ZERO). -/
def zero : Vec2 := ⟨0, 0⟩

@[simp] theorem add2_def (a b : Vec2) : a + b = ⟨a.x + b.x, a.y + b.y⟩ := rfl

@[simp] theorem sub2_def (a b : Vec2) : a - b = ⟨a.x - b.x, a.y - b.y⟩ := rfl

@[simp] theorem smul2_def (k : ℝ) (a : Vec2) : k • a = ⟨k * a.x, k * a.y⟩ := rfl

end Vec2

/-- RGB color with real channels, modelling math/color.rs Color. -/
structure Color where
  r : ℝ
  g : ℝ
  b : ℝ
deriving DecidableEq

namespace Color

/-- Color BLACK. -/
def black : Color := ⟨0, 0, 0⟩

/-- Color WHITE. -/
def white : Color := ⟨1, 1, 1⟩

instance : Add Color := ⟨fun a b => ⟨a.r + b.r, a.g + b.g, a.b + b.b⟩⟩

instance : Sub Color := ⟨fun a b => ⟨a.r - b.r, a.g - b.g, a.b - b.b⟩⟩

/-- Componentwise color product (impl Mul of Color for Color). -/
instance : Mul Color := ⟨fun a b => ⟨a.r * b.r, a.g * b.g, a.b * b.b⟩⟩

/-- Scalar product (impl Mul of f32 for Color). -/
instance : SMul ℝ Color := ⟨fun k a => ⟨a.r * k, a.g * k, a.b * k⟩⟩

/-- Scalar division (impl Div of f32 for Color). -/
def divs (a : Color) (k : ℝ) : Color := ⟨a.r / k, a.g / k, a.b / k⟩

@[simp] theorem addc_def (a b : Color) :
    a + b = ⟨a.r + b.r, a.g + b.g, a.b + b.b⟩ := rfl

@[simp] theorem subc_def (a b : Color) :
    a - b = ⟨a.r - b.r, a.g - b.g, a.b - b.b⟩ := rfl

@[simp] theorem mul_def (a b : Color) :
    a * b = ⟨a.r * b.r, a.g * b.g, a.b * b.b⟩ := rfl

@[simp] theorem smulc_def (k : ℝ) (a : Color) :
    k • a = ⟨a.r * k, a.g * k, a.b * k⟩ := rfl

end Color

/-- Extended reals used for ray.t_max and Hit.t, which the source seeds
with the f32 value INFINITY. -/
abbrev RVal := WithTop ℝ

/-- A ray, modelling math/ray.rs Ray.  t_max may be the f32 INFINITY,
modelled as the top element. -/
structure Ray where
  origin : Vec3
  direction : Vec3
  tMin : ℝ
  tMax : RVal

/-- Ray construction with default parametric bounds 0 and INFINITY
(Ray::new). -/
def Ray.new (origin direction : Vec3) : Ray :=
  ⟨origin, direction, 0, ⊤⟩

/-- The point at parameter t along a ray. -/
def Ray.at (r : Ray) (t : ℝ) : Vec3 := r.origin + t • r.direction

/-- An affine transform: a 3x3 linear part given by columns plus a
translation, modelling glam Affine3A as used by the renderer. -/
structure Affine where
  colX : Vec3
  colY : Vec3
  colZ : Vec3
  translation : Vec3
deriving DecidableEq

namespace Affine

/-- The identity affine transform. -/
def identity : Affine := ⟨⟨1, 0, 0⟩, ⟨0, 1, 0⟩, ⟨0, 0, 1⟩, ⟨0, 0, 0⟩⟩

/-- Transform a point (linear part plus translation). -/
def transformPoint (m : Affine) (p : Vec3) : Vec3 :=
  p.x • m.colX + p.y • m.colY + p.z • m.colZ + m.translation

/-- Transform a vector (linear part only). -/
def transformVector (m : Affine) (v : Vec3) : Vec3 :=
  v.x • m.colX + v.y • m.colY + v.z • m.colZ

end Affine

/-- transform_ray from math/ray.rs: transform origin as a point and
direction as a vector, keeping the parametric bounds. -/
def transformRay (m : Affine) (r : Ray) : Ray :=
  { r with
    origin := m.transformPoint r.origin
    direction := m.transformVector r.direction }

theorem Affine.transformPoint_identity (p : Vec3) :
    Affine.identity.transformPoint p = p := by
  cases p
  simp [Affine.transformPoint, Affine.identity]

theorem Affine.transformVector_identity (v : Vec3) :
    Affine.identity.transformVector v = v := by
  cases v
  simp [Affine.transformVector, Affine.identity]

theorem transformRay_identity (r : Ray) : transformRay Affine.identity r = r := by
  cases r
  simp [transformRay, Affine.transformPoint_identity, Affine.transformVector_identity]

/-- Opaque handle for a camera node.  The ray-tracing core never inspects
camera payloads (the camera is an out-of-scope collaborator); the handle
only tags the Primitive.camera variant. -/
structure Camera where
  tag : ℕ
deriving DecidableEq

/-- Sphere shape from shape.rs. -/
structure Sphere where
  center : Vec3
  radius : ℝ

/-- Triangle mesh data from shape.rs (points, normals, optional UVs,
flattened index buffer, triangle count, object/world transforms).  The
Arc sharing of the Rust source is modelled by plain values. -/
structure TriangleMesh where
  points : List Vec3
  normals : List Vec3
  texcoords : Option (List Vec2)
  indices : List ℕ
  triCount : ℕ
  objectToWorld : Affine
  worldToObject : Affine

/-- The closed shape variant set from shape.rs.  A triangle holds its
mesh and an index into it. -/
inductive Shape where
  | sphere (s : Sphere)
  | triangle (mesh : TriangleMesh) (id : ℕ)

/-- Scene-facing primitive variants from scene.rs. -/
inductive Primitive where
  | empty
  | camera (c : Camera)
  | sphere (center : Vec3) (radius : ℝ)
  | triangleMesh (mesh : TriangleMesh)

/-- Hit record from hit.rs.  t is seeded with the f32 INFINITY, modelled
as the top element of RVal. -/
structure Hit where
  primitive : Option Primitive
  shape : Option Shape
  p : Vec3
  ng : Vec3
  ns : Vec3
  uv : Vec2
  t : RVal
  dpdu : Vec3
  dpdv : Vec3
  front : Bool

/-- Hit Default from hit.rs: zero vectors, t = INFINITY, no
back-references, front = false. -/
def Hit.default : Hit :=
  ⟨none, none, Vec3.zero, Vec3.zero, Vec3.zero, Vec2.zero, ⊤,
   Vec3.zero, Vec3.zero, false⟩

/-- Result of one intersection test.  crash models a Rust panic (a failed
assert), miss models returning false with the hit untouched, hit models
returning true together with the written hit record. -/
inductive IResult where
  | crash
  | miss
  | hit (h : Hit)

/-- f32 atan2 (y, x), modelled over the reals by quadrant case analysis
(signed zeros are not distinguished in this model). -/
def atan2 (y x : ℝ) : ℝ :=
  if 0 < x then Real.arctan (y / x)
  else if x < 0 then
    (if 0 ≤ y then Real.arctan (y / x) + Real.pi else Real.arctan (y / x) - Real.pi)
  else if 0 < y then Real.pi / 2
  else if y < 0 then -(Real.pi / 2)
  else 0

/-- The hit record written by a successful sphere intersection at
parameter t (the tail of Sphere::intersect in shape.rs): position,
clamped t, normalized geometric and shading normal, spherical UV
parameterization, latitude/longitude tangent frame, and front flag. -/
def Sphere.record (s : Sphere) (ray : Ray) (hit : Hit) (t : ℝ) : Hit :=
  let p := ray.origin + t • ray.direction
  let ng := (p - s.center).normalize
  let theta := Real.arccos (-ng.y)
  let phi := atan2 (-ng.z) ng.x + Real.pi
  let north : Vec3 := ⟨0, 1, 0⟩
  let dpdu := (north.cross ng).normalize
  { hit with
    p := p
    t := min (t : RVal) hit.t
    ng := ng
    ns := ng
    uv := ⟨phi / (2 * Real.pi), theta / Real.pi⟩
    dpdu := dpdu
    dpdv := ng.cross dpdu
    front := decide (0 < ng.dot (-ray.direction)) }

/-- Sphere::intersect from shape.rs: solve the quadratic, reject a
negative discriminant, prefer the smaller root within the parametric
bounds, fall back to the larger root, fail if neither is in range. -/
def Sphere.intersect (s : Sphere) (ray : Ray) (hit : Hit) : IResult :=
  let oc := ray.origin - s.center
  let a := ray.direction.lengthSq
  let halfB := oc.dot ray.direction
  let c := oc.lengthSq - s.radius * s.radius
  let det := halfB * halfB - a * c
  if det < 0 then .miss
  else
    let sqrtd := Real.sqrt det
    let t1 := (-halfB - sqrtd) / a
    if t1 < ray.tMin ∨ ray.tMax < (t1 : RVal) then
      let t2 := (-halfB + sqrtd) / a
      if t2 < ray.tMin ∨ (t2 : RVal) > ray.tMax then .miss
      else .hit (s.record ray hit t2)
    else .hit (s.record ray hit t1)

/-- First vertex position of triangle id (mesh indexing; the source
panics on an out-of-range index, outside the mesh validity invariant;
this model totalizes the lookup with a zero default). -/
def triP0 (m : TriangleMesh) (id : ℕ) : Vec3 :=
  m.points.getD (m.indices.getD (id * 3) 0) Vec3.zero

/-- Second vertex position of triangle id. -/
def triP1 (m : TriangleMesh) (id : ℕ) : Vec3 :=
  m.points.getD (m.indices.getD (id * 3 + 1) 0) Vec3.zero

/-- Third vertex position of triangle id. -/
def triP2 (m : TriangleMesh) (id : ℕ) : Vec3 :=
  m.points.getD (m.indices.getD (id * 3 + 2) 0) Vec3.zero

/-- First vertex normal of triangle id. -/
def triN0 (m : TriangleMesh) (id : ℕ) : Vec3 :=
  m.normals.getD (m.indices.getD (id * 3) 0) Vec3.zero

/-- Second vertex normal of triangle id. -/
def triN1 (m : TriangleMesh) (id : ℕ) : Vec3 :=
  m.normals.getD (m.indices.getD (id * 3 + 1) 0) Vec3.zero

/-- Third vertex normal of triangle id. -/
def triN2 (m : TriangleMesh) (id : ℕ) : Vec3 :=
  m.normals.getD (m.indices.getD (id * 3 + 2) 0) Vec3.zero

/-- Triangle UVs (Triangle::uvs): per-vertex texcoords when the mesh has
them, otherwise the defaults (0,0), (1,0), (1,1). -/
def triUV0 (m : TriangleMesh) (id : ℕ) : Vec2 :=
  match m.texcoords with
  | some tc => tc.getD (m.indices.getD (id * 3) 0) Vec2.zero
  | none => ⟨0, 0⟩

/-- Second triangle UV. -/
def triUV1 (m : TriangleMesh) (id : ℕ) : Vec2 :=
  match m.texcoords with
  | some tc => tc.getD (m.indices.getD (id * 3 + 1) 0) Vec2.zero
  | none => ⟨1, 0⟩

/-- Third triangle UV. -/
def triUV2 (m : TriangleMesh) (id : ℕ) : Vec2 :=
  match m.texcoords with
  | some tc => tc.getD (m.indices.getD (id * 3 + 2) 0) Vec2.zero
  | none => ⟨1, 1⟩

/-- Unnormalized face normal ng = (p1 - p0) x (p2 - p0). -/
def triNg (m : TriangleMesh) (id : ℕ) : Vec3 :=
  ((triP1 m id) - (triP0 m id)).cross ((triP2 m id) - (triP0 m id))

/-- Triangle area = |ng| / 2. -/
def triArea (m : TriangleMesh) (id : ℕ) : ℝ := (triNg m id).length / 2

/-- ng dot ray direction (parallelism test quantity). -/
def triNDotRay (m : TriangleMesh) (id : ℕ) (ray : Ray) : ℝ :=
  (triNg m id).dot ray.direction

/-- Plane equation constant d = -(ng dot p0). -/
def triD (m : TriangleMesh) (id : ℕ) : ℝ := -((triNg m id).dot (triP0 m id))

/-- Plane intersection parameter t = -((ng dot o) + d) / (ng dot dir). -/
def triT (m : TriangleMesh) (id : ℕ) (ray : Ray) : ℝ :=
  -((triNg m id).dot ray.origin + triD m id) / triNDotRay m id ray

/-- Plane intersection point p = o + t * dir. -/
def triHitP (m : TriangleMesh) (id : ℕ) (ray : Ray) : Vec3 :=
  ray.origin + (triT m id ray) • ray.direction

/-- Edge-0 cross product c = (p1 - p0) x (p - p0). -/
def triC0 (m : TriangleMesh) (id : ℕ) (ray : Ray) : Vec3 :=
  ((triP1 m id) - (triP0 m id)).cross ((triHitP m id ray) - (triP0 m id))

/-- Edge-1 cross product c = (p2 - p1) x (p - p1). -/
def triC1 (m : TriangleMesh) (id : ℕ) (ray : Ray) : Vec3 :=
  ((triP2 m id) - (triP1 m id)).cross ((triHitP m id ray) - (triP1 m id))

/-- Edge-2 cross product c = (p0 - p2) x (p - p2). -/
def triC2 (m : TriangleMesh) (id : ℕ) (ray : Ray) : Vec3 :=
  ((triP0 m id) - (triP2 m id)).cross ((triHitP m id ray) - (triP2 m id))

/-- Barycentric weight u = (|c1| / 2) / area. -/
def triU (m : TriangleMesh) (id : ℕ) (ray : Ray) : ℝ :=
  (triC1 m id ray).length / 2 / triArea m id

/-- Barycentric weight v = (|c2| / 2) / area. -/
def triV (m : TriangleMesh) (id : ℕ) (ray : Ray) : ℝ :=
  (triC2 m id ray).length / 2 / triArea m id

/-- Barycentric weight w = 1 - u - v. -/
def triW (m : TriangleMesh) (id : ℕ) (ray : Ray) : ℝ :=
  1 - triU m id ray - triV m id ray

/-- coordinate_system from math/mod.rs: build an arbitrary orthonormal
basis around v1. -/
def coordinateSystem (v1 : Vec3) : Vec3 × Vec3 :=
  let v2 :=
    if |v1.x| > |v1.y| then
      (1 / Real.sqrt (v1.x * v1.x + v1.z * v1.z)) • (⟨-v1.z, 0, v1.x⟩ : Vec3)
    else
      (1 / Real.sqrt (v1.y * v1.y + v1.z * v1.z)) • (⟨0, v1.z, -v1.y⟩ : Vec3)
  (v2, v1.cross v2)

/-- The hit record written by a successful triangle intersection (the
tail of Triangle::intersect): position, clamped t, unnormalized face
normal as ng, normalized barycentric blend of vertex normals as ns,
front flag, interpolated UV, and dpdu/dpdv from the UV-gradient solve
with a fallback basis when the UV determinant is near zero. -/
def Triangle.record (m : TriangleMesh) (id : ℕ) (ray : Ray) (hit : Hit) : Hit :=
  let u := triU m id ray
  let v := triV m id ray
  let w := triW m id ray
  let ng := triNg m id
  let ns := (u • (triN0 m id) + v • (triN1 m id) + w • (triN2 m id)).normalize
  let dp1 := (triP1 m id) - (triP0 m id)
  let dp2 := (triP2 m id) - (triP0 m id)
  let duv1 := (triUV1 m id) - (triUV0 m id)
  let duv2 := (triUV2 m id) - (triUV0 m id)
  let determinant := duv1.x * duv2.y - duv1.y * duv2.x
  let frame :=
    if |determinant| < 1 / 100000000 then coordinateSystem ns
    else
      let r := 1 / determinant
      (r • ((duv2.y • dp1) - (duv1.y • dp2)), r • ((duv1.x • dp2) - (duv2.x • dp1)))
  { hit with
    p := triHitP m id ray
    t := min ((triT m id ray : ℝ) : RVal) hit.t
    ng := ng
    ns := ns
    front := decide (0 < ng.dot (-ray.direction))
    uv := u • (triUV0 m id) + v • (triUV1 m id) + w • (triUV2 m id)
    dpdu := frame.1
    dpdv := frame.2 }

/-- Triangle::intersect from shape.rs: reject near-parallel rays, solve
the plane parameter and reject when out of the parametric bounds, apply
the three edge-function inside tests, then run the two in-code asserts
on the barycentric weights u and v; crash models a failing assert. -/
def Triangle.intersect (m : TriangleMesh) (id : ℕ) (ray : Ray) (hit : Hit) :
    IResult :=
  if |triNDotRay m id ray| < 1 / 10000 then .miss
  else if triT m id ray < ray.tMin ∨ ((triT m id ray : ℝ) : RVal) > ray.tMax then .miss
  else if (triNg m id).dot (triC0 m id ray) < 0 then .miss
  else if (triNg m id).dot (triC1 m id ray) < 0 then .miss
  else if (triNg m id).dot (triC2 m id ray) < 0 then .miss
  else if ¬(0 ≤ triU m id ray ∧ triU m id ray ≤ 1) then .crash
  else if ¬(0 ≤ triV m id ray ∧ triV m id ray ≤ 1) then .crash
  else .hit (Triangle.record m id ray hit)

/-- Shape::intersect dispatch from shape.rs. -/
def Shape.intersect (sh : Shape) (ray : Ray) (hit : Hit) : IResult :=
  match sh with
  | .sphere s => s.intersect ray hit
  | .triangle m id => Triangle.intersect m id ray hit

/-- Vec3 splat. -/
def Vec3.splat (k : ℝ) : Vec3 := ⟨k, k, k⟩

/-- A nonempty axis-aligned bounding box. -/
structure Box where
  lo : Vec3
  hi : Vec3

/-- Modelled from the spec: the AABB type of the external bvh crate.
The crate represents the empty box by a plus/minus INFINITY sentinel
that acts as the identity of join; here none plays that role. -/
def AABB := Option Box

/-- Modelled from the spec: join (union) of two bounding boxes
(AABB::join_mut); the empty box is the identity. -/
def AABB.join : AABB → AABB → AABB
  | Option.none, b => b
  | Option.some a, Option.none => some a
  | Option.some a, Option.some b => some ⟨Vec3.minv a.lo b.lo, Vec3.maxv a.hi b.hi⟩

/-- Sphere bounding box (impl Bounded for Sphere): center plus/minus the
splatted radius. -/
def Sphere.aabb (s : Sphere) : Box :=
  ⟨s.center - Vec3.splat s.radius, s.center + Vec3.splat s.radius⟩

/-- Triangle bounding box (impl Bounded for Triangle): componentwise
min/max of the three vertices (the INFINITY fold seed of the source is
absorbed by the first min/max in this real-valued model). -/
def Triangle.aabb (m : TriangleMesh) (id : ℕ) : Box :=
  ⟨Vec3.minv (Vec3.minv (triP0 m id) (triP1 m id)) (triP2 m id),
   Vec3.maxv (Vec3.maxv (triP0 m id) (triP1 m id)) (triP2 m id)⟩

/-- Shape::aabb dispatch. -/
def Shape.aabb : Shape → Box
  | .sphere s => s.aabb
  | .triangle m id => Triangle.aabb m id

/-- Membership of a point in a box (componentwise interval membership). -/
def Box.mem (p : Vec3) (b : Box) : Prop :=
  b.lo.x ≤ p.x ∧ p.x ≤ b.hi.x ∧ b.lo.y ≤ p.y ∧ p.y ≤ b.hi.y ∧
  b.lo.z ≤ p.z ∧ p.z ≤ b.hi.z

/-- Modelled from the spec: the ray (a semi-infinite line from its
origin, parametric bounds not being part of the bvh crate ray) intersects
a box iff some point at nonnegative parameter lies inside it. -/
def rayHitsBox (r : Ray) (b : Box) : Prop :=
  ∃ t : ℝ, 0 ≤ t ∧ Box.mem (r.at t) b

/-- Ray versus possibly-empty AABB: the empty box is never hit. -/
def rayHitsAABB (r : Ray) : AABB → Prop
  | Option.none => False
  | Option.some b => rayHitsBox r b

/-- Modelled from the spec: BVH::traverse of the external bvh crate
yields exactly the stored elements whose bounding box the ray
intersects; this model keeps them in element-list order. -/
def bvhTraverse {α : Type} (r : Ray) (boxOf : α → AABB) (xs : List α) : List α :=
  xs.filter fun a => decide (rayHitsAABB r (boxOf a))

/-- L1 node of the two-level BVH (accelerator.rs): its own L2 element
list, the union bound, and the owning primitive.  The l2_bvh tree and
node_index fields belong to the external bvh crate and are replaced by
the traverse model above. -/
structure L1Node where
  l2nodes : List Shape
  bound : AABB
  primitive : Primitive

/-- Scene node tree from scene.rs (prim plus ordered children). -/
inductive SceneNode where
  | mk (prim : Primitive) (children : List SceneNode)

/-- The node's primitive. -/
def SceneNode.prim : SceneNode → Primitive
  | .mk p _ => p

/-- The node's ordered children. -/
def SceneNode.children : SceneNode → List SceneNode
  | .mk _ c => c

/-- Number of nodes in a scene tree (termination measure for the
breadth-first walks). -/
def SceneNode.size : SceneNode → ℕ
  | .mk _ cs => 1 + (cs.attach.map fun c => SceneNode.size c.1).sum
decreasing_by
  simp only [SceneNode.mk.sizeOf_spec]
  have h := List.sizeOf_lt_of_mem c.2
  omega

/-- Total size of a queue of scene nodes. -/
def queueSize (q : List SceneNode) : ℕ := (q.map SceneNode.size).sum

theorem SceneNode.size_mk (p : Primitive) (cs : List SceneNode) :
    SceneNode.size (.mk p cs) = 1 + queueSize cs := by
  simp [SceneNode.size, queueSize, List.attach_map_coe]

theorem queueSize_cons (n : SceneNode) (q : List SceneNode) :
    queueSize (n :: q) = SceneNode.size n + queueSize q := by
  simp [queueSize]

theorem queueSize_append (q q' : List SceneNode) :
    queueSize (q ++ q') = queueSize q + queueSize q' := by
  simp [queueSize]

theorem queueSize_tail_lt (n : SceneNode) (q : List SceneNode) :
    queueSize (q ++ n.children) < queueSize (n :: q) := by
  cases n with
  | mk p cs =>
    rw [queueSize_cons, queueSize_append, SceneNode.size_mk, SceneNode.children]
    omega

/-- The L2 element list built for one primitive in Accelerator::build:
one sphere shape for a sphere primitive, one triangle shape per triangle
for a mesh, nothing for the other variants. -/
def nodeL2 : Primitive → List Shape
  | .empty => []
  | .camera _ => []
  | .sphere c r => [Shape.sphere ⟨c, r⟩]
  | .triangleMesh m => (List.range m.triCount).map fun i => Shape.triangle m i

/-- The bound accumulated for one primitive in Accelerator::build: the
join of the element bounding boxes, starting from the empty box. -/
def nodeBound (prim : Primitive) : AABB :=
  (nodeL2 prim).foldl (fun b sh => AABB.join b (some sh.aabb)) none

/-- The breadth-first queue walk of Accelerator::build: pop the front
node, wrap its nonempty L2 list into an L1 node, push its children at
the back. -/
def collectL1 : List SceneNode → List L1Node
  | [] => []
  | n :: rest =>
    (if (nodeL2 n.prim).isEmpty then ([] : List L1Node)
     else [⟨nodeL2 n.prim, nodeBound n.prim, n.prim⟩]) ++
      collectL1 (rest ++ n.children)
termination_by q => queueSize q
decreasing_by exact queueSize_tail_lt _ _

/-- The scene translation state from scene.rs: the translated primitive
tree root, the collected cameras, and the active camera index (a usize
in the source, hence a natural number with no unset state). -/
structure SceneEngine where
  root : SceneNode
  cameras : List Camera
  activeCam : ℕ

/-- SceneEngine::new: an empty root, no cameras, active index 0. -/
def SceneEngine.new : SceneEngine := ⟨.mk .empty [], [], 0⟩

/-- The two-level acceleration structure (accelerator.rs); the l1_bvh
tree of the external crate is replaced by the traverse model. -/
structure Accelerator where
  l1nodes : List L1Node

/-- Accelerator::build: breadth-first collection of L1 nodes over the
scene root. -/
def Accelerator.build (scene : SceneEngine) : Accelerator :=
  ⟨collectL1 [scene.root]⟩

/-- The inner L2 loop of Accelerator::intersect over a candidate list:
each shape is intersected with a fresh default hit; a front-facing hit
sets any_hit and is recorded when strictly closer than the best so far,
with the primitive and shape back-references filled in.  A crash of a
shape kernel (a failed assert) aborts the whole traversal. -/
def l2Scan (r : Ray) (prim : Primitive) :
    List Shape → Bool × RVal × Hit → Option (Bool × RVal × Hit)
  | [], st => some st
  | sh :: rest, (anyHit, closest, best) =>
    match sh.intersect r Hit.default with
    | .crash => none
    | .miss => l2Scan r prim rest (anyHit, closest, best)
    | .hit tmp =>
      if tmp.front then
        if tmp.t < closest then
          l2Scan r prim rest
            (true, tmp.t, { tmp with primitive := some prim, shape := some sh })
        else l2Scan r prim rest (true, closest, best)
      else l2Scan r prim rest (anyHit, closest, best)

/-- The outer L1 loop of Accelerator::intersect: for each L1 candidate,
the per-primitive transform is selected by a match whose Empty, Camera
and Sphere arms are todo macros in the source - reaching one panics,
modelled by none; for a mesh the ray is transformed by world_to_object
and the L2 BVH of the candidate is traversed with the transformed ray. -/
def l1Scan (r : Ray) :
    List L1Node → Bool × RVal × Hit → Option (Bool × RVal × Hit)
  | [], st => some st
  | l1 :: rest, st =>
    match l1.primitive with
    | .triangleMesh m =>
      let ray2 := transformRay m.worldToObject r
      match l2Scan ray2 l1.primitive (bvhTraverse ray2 (fun sh => some sh.aabb) l1.l2nodes) st with
      | Option.none => none
      | Option.some st2 => l1Scan r rest st2
    | _ => none

/-- Accelerator::intersect: traverse the L1 BVH, run the nested scans
starting from any_hit = false, closest = INFINITY and the caller's hit,
and return whether any front-facing hit was found together with the
final hit record.  none models a panic (a todo arm or a failed assert). -/
def Accelerator.intersect (a : Accelerator) (r : Ray) (hit : Hit) :
    Option (Bool × Hit) :=
  match l1Scan r (bvhTraverse r L1Node.bound a.l1nodes) (false, ⊤, hit) with
  | Option.none => none
  | Option.some (anyHit, _, h) => some (anyHit, h)

/-- One step of the brute-force oracle: like the accelerator's inner
loop, intersect the shape with a fresh default hit and keep a
front-facing hit that is strictly closer than the best so far. -/
def bruteStep (r : Ray) (st : Bool × RVal × Hit) (ps : Primitive × Shape) :
    Bool × RVal × Hit :=
  match ps.2.intersect r Hit.default with
  | .hit tmp =>
    if tmp.front then
      if tmp.t < st.2.1 then
        (true, tmp.t, { tmp with primitive := some ps.1, shape := some ps.2 })
      else (true, st.2.1, st.2.2)
    else st
  | _ => st

/-- Modelled from the spec (testable property: BVH traversal
equivalence): a brute-force linear scan over every shape in the scene
that keeps, among all shapes whose intersect succeeds with front = true,
the one with the smallest t, ties keeping the first recorded, and
records that shape's back-references. -/
def bruteForce (shapes : List (Primitive × Shape)) (r : Ray) (hit0 : Hit) :
    Bool × Hit :=
  let st := shapes.foldl (bruteStep r) (false, ⊤, hit0)
  (st.1, st.2.2)

/-- Every (owning primitive, shape) pair of the scene, in the same
breadth-first order the accelerator build visits them. -/
def sceneShapesQ : List SceneNode → List (Primitive × Shape)
  | [] => []
  | n :: rest =>
    (nodeL2 n.prim).map (fun sh => (n.prim, sh)) ++ sceneShapesQ (rest ++ n.children)
termination_by q => queueSize q
decreasing_by exact queueSize_tail_lt _ _

/-- Every shape of a scene, with its owning primitive. -/
def sceneShapes (scene : SceneEngine) : List (Primitive × Shape) :=
  sceneShapesQ [scene.root]

/-- Hit::local_to_world from hit.rs: asserts that ns is normalized (the
glam is_normalized test, |length squared - 1| within 2e-4; a failure
panics, modelled by none), then maps the local vector through the
(tangent, bitangent, ns) column frame built from normalized dpdu. -/
def Hit.localToWorld (h : Hit) (v : Vec3) : Option Vec3 :=
  if |h.ns.lengthSq - 1| ≤ 2 / 10000 then
    let tangent := h.dpdu.normalize
    let bitangent := h.ns.cross tangent
    some (v.x • tangent + v.y • bitangent + v.z • h.ns)
  else none

/-- concentric_sample_disk from math/mod.rs. -/
def concentricSampleDisk (u : Vec2) : Vec2 :=
  let uOffset : Vec2 := (2 : ℝ) • u - ⟨1, 1⟩
  if uOffset.x = 0 ∧ uOffset.y = 0 then Vec2.zero
  else
    let rt :=
      if |uOffset.x| > |uOffset.y| then
        (uOffset.x, Real.pi / 4 * (uOffset.y / uOffset.x))
      else
        (uOffset.y, Real.pi / 2 - Real.pi / 4 * (uOffset.x / uOffset.y))
    ⟨Real.cos rt.2 * rt.1, Real.sin rt.2 * rt.1⟩

/-- cosine_sample_hemisphere from math/mod.rs (Malley's method). -/
def cosineSampleHemisphere (u : Vec2) : Vec3 :=
  let d := concentricSampleDisk u
  let z := Real.sqrt (max (1 - d.x * d.x - d.y * d.y) 0)
  ⟨d.x, d.y, z⟩

/-- The Lambertian BSDF from bsdf.rs. -/
structure Lambertian where
  diffuseColor : Color

/-- The Default Lambertian: diffuse albedo (0.8, 0.8, 0.8). -/
def Lambertian.default : Lambertian := ⟨⟨0.8, 0.8, 0.8⟩⟩

/-- Lambertian::eval: black with pdf 0 when cos theta-i = ns dot wi is
nonpositive, otherwise the constant diffuse color with pdf = cos / pi.
(wo is unused by the source.)  Returns (color, pdf). -/
def Lambertian.eval (l : Lambertian) (hit : Hit) (_wo wi : Vec3) : Color × ℝ :=
  let cosThetaI := hit.ns.dot wi
  if cosThetaI ≤ 0 then (Color.black, 0)
  else (l.diffuseColor, cosThetaI / Real.pi)

/-- Lambertian::sample: draw a cosine-weighted local direction, map it
to world space through the hit frame (which can panic on a
non-normalized ns, modelled by none), then the same cosine/pdf logic as
eval, zeroing wi on failure.  Returns (color, wi, pdf). -/
def Lambertian.sample (l : Lambertian) (hit : Hit) (_wo : Vec3) (u : Vec2) :
    Option (Color × Vec3 × ℝ) :=
  match hit.localToWorld (cosineSampleHemisphere u) with
  | Option.none => none
  | Option.some wi =>
    let cosThetaI := hit.ns.dot wi
    if cosThetaI ≤ 0 then some (Color.black, Vec3.zero, 0)
    else some (l.diffuseColor, wi, cosThetaI / Real.pi)

/-- sky_color from integrator.rs: lerp between white and (0.5, 0.7, 1.0)
by t = 0.5 * (direction.y + 1). -/
def skyColor (ray : Ray) : Color :=
  let t := 0.5 * (ray.direction.y + 1)
  (1 - t) • Color.white + t • (⟨0.5, 0.7, 1⟩ : Color)

/-- PathIntegrator state from integrator.rs (rr_threshold is never read
by the source). -/
structure PathIntegrator where
  maxBounce : ℕ
  rrThreshold : ℝ

/-- PathIntegrator::new: the given bounce cap, rr_threshold = 1. -/
def PathIntegrator.new (maxBounce : ℕ) : PathIntegrator := ⟨maxBounce, 1⟩

/-- PathIntegrator::li from integrator.rs.  The stateful sampler is
modelled by a stream of 2d samples indexed by recursion depth (the
source draws exactly one fresh get_2d per call).  none models a panic
propagated from the accelerator (todo arms, asserts).  On a miss the
sky gradient is returned; then the depth cap yields black; then the
BSDF is sampled, black or zero-pdf samples terminate the path, and the
estimator le + f * li(continuation) * max(0, wi dot ns) recurses with a
continuation ray from hit.p with t_min = 0.001. -/
def PathIntegrator.li (ig : PathIntegrator) (accel : Accelerator)
    (samples : ℕ → Vec2) (ray : Ray) (bounce : ℕ) : Option Color :=
  match accel.intersect ray Hit.default with
  | Option.none => none
  | Option.some (found, hit) =>
    if ¬found then some (skyColor ray)
    else if _h : ig.maxBounce ≤ bounce then some Color.black
    else
      let wo := -ray.direction
      match Lambertian.default.sample hit wo (samples bounce) with
      | Option.none => none
      | Option.some (f, wi, pdf) =>
        if f = Color.black ∨ pdf = 0 then some Color.black
        else
          let le := Color.black
          let cosine := max (wi.dot hit.ns) 0
          let newRay : Ray := ⟨hit.p, wi, 0.001, ⊤⟩
          match ig.li accel samples newRay (bounce + 1) with
          | Option.none => none
          | Option.some li2 => some (le + cosine • (f * li2))
termination_by ig.maxBounce - bounce
decreasing_by omega

/-- An RGBA8 pixel: four bytes, each a natural number below 256. -/
abbrev RGBA := ℕ × ℕ × ℕ × ℕ

/-- The progressive film buffer from film.rs: a dimension and a dense
row-major RGBA8 pixel array. -/
structure Film where
  dimension : ℕ × ℕ
  data : List RGBA

/-- Film::new: a zero-initialized width x height buffer. -/
def Film.new (w h : ℕ) : Film := ⟨(w, h), List.replicate (w * h) (0, 0, 0, 0)⟩

/-- Film::pixel: read back the RGB bytes at (x, y) and convert each to a
real in the unit interval by dividing by 255. -/
def Film.pixel (f : Film) (x y : ℕ) : Color :=
  let d := f.data.getD (y * f.dimension.1 + x) (0, 0, 0, 0)
  ⟨(d.1 : ℝ) / 255, (d.2.1 : ℝ) / 255, (d.2.2.1 : ℝ) / 255⟩

/-- Film::write_pixel: store raw bytes at (x, y).  (The source panics on
an out-of-bounds index; List.set ignores it, the claims quantify over
in-bounds pixels only.) -/
def Film.writePixel (f : Film) (x y : ℕ) (c : RGBA) : Film :=
  { f with data := f.data.set (y * f.dimension.1 + x) c }

/-- One channel of the Into conversion of Color to RGBA8 bytes in
color.rs: scale by 255, clamp to the byte range, and truncate toward
zero as the Rust cast does. -/
def quantize (v : ℝ) : ℕ := ⌊min (max (v * 255) 0) 255⌋.toNat

/-- Into RGBA8 bytes for a color: quantized channels with alpha 255. -/
def Color.toRGBA8 (c : Color) : RGBA := (quantize c.r, quantize c.g, quantize c.b, 255)

/-- One sample-accumulation step of RenderEngine::render_frame for
pixel (x, y) with sample color c at iteration spp: the sample is written
directly when spp = 1, otherwise the running mean update
old + (c - old) / spp is applied to the read-back pixel, and the result
is quantized and stored. -/
def accumStep (x y : ℕ) (c : Color) (film : Film) (spp : ℕ) : Film :=
  let accPixel :=
    if spp = 1 then c
    else
      let p := film.pixel x y
      p + (c - p).divs (spp : ℝ)
  film.writePixel x y (Color.toRGBA8 accPixel)

/-- The progressive accumulation loop of render_frame restricted to one
pixel fed a constant sample color: iterations spp = 1, 2, ..., n. -/
def accumLoop (x y : ℕ) (c : Color) (film : Film) : ℕ → Film
  | 0 => film
  | n + 1 => accumStep x y c (accumLoop x y c film n) (n + 1)

/-- Render settings from raytrace/mod.rs. -/
structure RenderSettings where
  resolution : ℕ × ℕ
  samplesPerPixel : ℕ
  maxBounce : ℕ

/-- The one-shot render context from raytrace/mod.rs (the camera Weak
reference is modelled by value). -/
structure RenderContext where
  settings : RenderSettings
  accelerator : Accelerator
  camera : Camera

/-- RenderEngine::prepare_render from raytrace/mod.rs: build a fresh
accelerator, then index scene.cameras[scene.active_cam]; the source
performs an unchecked usize index, which panics when the index is out of
bounds (in particular whenever the camera list is empty) - none models
that panic. -/
def prepareRender (settings : RenderSettings) (scene : SceneEngine) :
    Option RenderContext :=
  let accelerator := Accelerator.build scene
  match scene.cameras.get? scene.activeCam with
  | Option.none => none
  | Option.some cam => some ⟨settings, accelerator, cam⟩

/-- The restriction under which the L1 traversal of
Accelerator::intersect avoids its todo arms and its object-space
transform is the identity: sphere primitives are excluded and every mesh
carries the identity world_to_object transform. -/
def PrimOK : Primitive → Prop
  | .sphere _ _ => False
  | .triangleMesh m => m.worldToObject = Affine.identity
  | _ => True

/-- All primitives of a scene queue in breadth-first order. -/
def collectPrimsQ : List SceneNode → List Primitive
  | [] => []
  | n :: rest => n.prim :: collectPrimsQ (rest ++ n.children)
termination_by q => queueSize q
decreasing_by exact queueSize_tail_lt _ _

/-- Concrete triangle mesh for witnesses: a single triangle in the
plane z = -2 with constant normals and identity transforms. -/
def wmesh : TriangleMesh :=
  ⟨[⟨-1, -1, -2⟩, ⟨1, -1, -2⟩, ⟨0, 1, -2⟩],
   [⟨0, 0, 1⟩, ⟨0, 0, 1⟩, ⟨0, 0, 1⟩],
   none, [0, 1, 2], 1, Affine.identity, Affine.identity⟩

/-- Concrete witness ray: from the origin straight down -z. -/
def wray : Ray := Ray.new Vec3.zero ⟨0, 0, -1⟩

/-- Concrete witness scene: one triangle-mesh node, no cameras. -/
def wscene : SceneEngine := ⟨.mk (.triangleMesh wmesh) [], [], 0⟩

/-- The hit record the witness triangle produces. -/
def wtriHit : Hit := Triangle.record wmesh 0 wray Hit.default

/-- The witness hit with the back-references the accelerator fills in. -/
def wfinalHit : Hit :=
  { wtriHit with
    primitive := some (.triangleMesh wmesh)
    shape := some (.triangle wmesh 0) }

/-- Concrete scene with a single sphere primitive (exercising the todo
arm of the L1 transform match). -/
def cscene : SceneEngine := ⟨.mk (.sphere ⟨0, 0, -2⟩ 1) [], [], 0⟩

/-- Concrete ray toward the cscene sphere. -/
def cray : Ray := Ray.new Vec3.zero ⟨0, 0, -1⟩

/-- A second concrete sphere scene (center at z = -3). -/
def c3scene : SceneEngine := ⟨.mk (.sphere ⟨0, 0, -3⟩ 1) [], [], 0⟩

/-- Concrete ray toward the c3scene sphere. -/
def c3ray : Ray := Ray.new Vec3.zero ⟨0, 0, -1⟩

/-- The hit record of the witness sphere intersection at t = 1. -/
def c7hit : Hit :=
  Sphere.record ⟨⟨0, 0, -2⟩, 1⟩ (Ray.new Vec3.zero ⟨0, 0, -1⟩) Hit.default 1

/-- A concrete hit with unit shading normal +z and tangent +x, for the
BSDF sampling witness. -/
def c9hit : Hit := { Hit.default with ns := ⟨0, 0, 1⟩, dpdu := ⟨1, 0, 0⟩ }

/-- The single L1 node built for the witness scene. -/
def wl1 : L1Node :=
  ⟨[Shape.triangle wmesh 0], some ⟨⟨-1, -1, -2⟩, ⟨1, 1, -2⟩⟩, .triangleMesh wmesh⟩

/-- State invariant of the nested intersect scans: while no front-facing
hit has been found the state still carries INFINITY and the caller's
hit record untouched; once one has been found the carried hit has both
back-references set and front = true. -/
def GoodSt (hit0 : Hit) (st : Bool × RVal × Hit) : Prop :=
  (st.1 = false → st.2.1 = ⊤ ∧ st.2.2 = hit0) ∧
  (st.1 = true →
    st.2.2.primitive.isSome = true ∧ st.2.2.shape.isSome = true ∧ st.2.2.front = true)

/-- C6: with zero collected camera nodes, prepare_render does not reach a
render context.  In the source the failure is an unchecked index panic,
not an explicit error value: SceneEngine keeps active_cam as a plain
usize (no unset state), and prepare_render indexes the empty camera list. -/
theorem C6_prepare_render_empty_cameras (settings : RenderSettings)
    (scene : SceneEngine) (hc : scene.cameras = []) :
    prepareRender settings scene = none := by
  simp [prepareRender, hc]

/-- Witness: the freshly constructed SceneEngine has no cameras and
prepare_render on it yields the panic model. -/
theorem C6_prepare_render_empty_cameras_witness :
    SceneEngine.new.cameras = [] ∧
      prepareRender ⟨(1, 1), 1, 1⟩ SceneEngine.new = none :=
  ⟨rfl, C6_prepare_render_empty_cameras _ _ rfl⟩

/-- C4: PathIntegrator::li returns the sky gradient on any miss (at any
bounce depth), and black whenever an intersection was found and the
bounce counter has reached max_bounce. -/
theorem C4_li_sky_and_depth_cap (ig : PathIntegrator) (accel : Accelerator)
    (samples : ℕ → Vec2) (ray : Ray) (bounce : ℕ) :
    (∀ h, accel.intersect ray Hit.default = some (false, h) →
        ig.li accel samples ray bounce = some (skyColor ray)) ∧
    (∀ h, accel.intersect ray Hit.default = some (true, h) →
        ig.maxBounce ≤ bounce → ig.li accel samples ray bounce = some Color.black) := by
  constructor
  · intro h hres
    unfold PathIntegrator.li
    rw [hres]
    simp
  · intro h hres hb
    unfold PathIntegrator.li
    rw [hres]
    simp [hb]

/-- C7: whenever a shape kernel reports a hit, the recorded front flag
agrees with the sign test ng dot (-direction) > 0 on the recorded
geometric normal. -/
theorem C7_front_orientation (sh : Shape) (ray : Ray) (hit0 h : Hit)
    (hres : sh.intersect ray hit0 = .hit h) :
    (h.front = true ↔ 0 < h.ng.dot (-ray.direction)) := by
  cases sh with
  | sphere s =>
    replace hres : s.intersect ray hit0 = .hit h := hres
    unfold Sphere.intersect at hres
    dsimp only at hres
    split_ifs at hres
    all_goals
      first
      | exact IResult.noConfusion hres
      | (injection hres with hrec; subst hrec;
         simp [Sphere.record, decide_eq_true_eq])
  | triangle m id =>
    replace hres : Triangle.intersect m id ray hit0 = .hit h := hres
    unfold Triangle.intersect at hres
    split_ifs at hres
    all_goals
      first
      | exact IResult.noConfusion hres
      | (injection hres with hrec; subst hrec;
         simp [Triangle.record, decide_eq_true_eq])

/-- C9: Lambertian eval returns black with pdf 0 for nonpositive
cos theta-i and the default albedo with pdf = cos / pi otherwise, and
any (color, wi, pdf) successfully produced by Lambertian sample agrees
with a subsequent eval at the same wi on the pdf. -/
theorem C9_lambertian_eval_sample (hit : Hit) (wo wi0 : Vec3) (u : Vec2)
    (hns : hit.ns.lengthSq = 1) :
    (hit.ns.dot wi0 ≤ 0 → Lambertian.default.eval hit wo wi0 = (Color.black, 0)) ∧
    (0 < hit.ns.dot wi0 →
      Lambertian.default.eval hit wo wi0 = (⟨0.8, 0.8, 0.8⟩, hit.ns.dot wi0 / Real.pi)) ∧
    (∀ f wi pdf, Lambertian.default.sample hit wo u = some (f, wi, pdf) →
      (Lambertian.default.eval hit wo wi).2 = pdf) := by
  refine ⟨?_, ?_, ?_⟩
  · intro hle
    simp [Lambertian.eval, hle]
  · intro hpos
    simp [Lambertian.eval, not_le.mpr hpos, Lambertian.default]
  · intro f wi pdf hs
    unfold Lambertian.sample Hit.localToWorld at hs
    rw [if_pos (by rw [hns]; norm_num)] at hs
    dsimp only at hs
    split_ifs at hs with hc
    · simp only [Option.some.injEq, Prod.mk.injEq] at hs
      obtain ⟨-, hwi, hpdf⟩ := hs
      subst hwi
      unfold Lambertian.eval
      dsimp only
      rw [if_pos (by simp [Vec3.dot, Vec3.zero])]
      exact hpdf
    · simp only [Option.some.injEq, Prod.mk.injEq] at hs
      obtain ⟨-, hwi, hpdf⟩ := hs
      subst hwi
      unfold Lambertian.eval
      dsimp only
      rw [if_neg hc]
      exact hpdf

/-- Witness for C9: at a hit with shading normal +z, tangent +x and the
centered sample (1/2, 1/2), sample produces wi = +z with pdf = 1 / pi,
and eval at that wi reports the same pdf. -/
theorem C9_lambertian_eval_sample_witness :
    c9hit.ns.lengthSq = 1 ∧
      Lambertian.default.sample c9hit Vec3.zero ⟨1 / 2, 1 / 2⟩ =
        some (⟨0.8, 0.8, 0.8⟩, ⟨0, 0, 1⟩, 1 / Real.pi) ∧
      (Lambertian.default.eval c9hit Vec3.zero ⟨0, 0, 1⟩).2 = 1 / Real.pi := by
  have hns : c9hit.ns.lengthSq = 1 := by
    norm_num [c9hit, Hit.default, Vec3.lengthSq, Vec3.dot]
  have hdisk : cosineSampleHemisphere ⟨1 / 2, 1 / 2⟩ = ⟨0, 0, 1⟩ := by
    unfold cosineSampleHemisphere concentricSampleDisk
    norm_num [Vec2.zero, Real.sqrt_one]
  have hsamp : Lambertian.default.sample c9hit Vec3.zero ⟨1 / 2, 1 / 2⟩ =
      some (⟨0.8, 0.8, 0.8⟩, ⟨0, 0, 1⟩, 1 / Real.pi) := by
    unfold Lambertian.sample Hit.localToWorld
    rw [if_pos (by rw [hns]; norm_num), hdisk]
    dsimp only
    norm_num [c9hit, Hit.default, Vec3.dot, Vec3.cross, Vec3.normalize, Vec3.length,
      Vec3.lengthSq, Real.sqrt_one, Lambertian.default]
  refine ⟨hns, hsamp, ?_⟩
  have := (C9_lambertian_eval_sample c9hit Vec3.zero ⟨0, 0, 1⟩ ⟨1 / 2, 1 / 2⟩ hns).2.2
    _ _ _ hsamp
  exact this

/-- The accelerator built from the fresh empty scene finds no hit and
leaves the caller's hit record untouched, for every ray. -/
theorem emptyAccel_intersect (r : Ray) (hit0 : Hit) :
    (Accelerator.build SceneEngine.new).intersect r hit0 = some (false, hit0) := by
  have hcoll : collectL1 [SceneNode.mk .empty []] = [] := by
    rw [collectL1]
    simp [nodeL2, SceneNode.prim, SceneNode.children, collectL1]
  unfold Accelerator.build SceneEngine.new
  dsimp only
  rw [hcoll]
  unfold Accelerator.intersect bvhTraverse l1Scan
  simp

theorem wP0 : triP0 wmesh 0 = ⟨-1, -1, -2⟩ := by
  norm_num [triP0, wmesh, List.getD]

theorem wP1 : triP1 wmesh 0 = ⟨1, -1, -2⟩ := by
  norm_num [triP1, wmesh, List.getD]

theorem wP2 : triP2 wmesh 0 = ⟨0, 1, -2⟩ := by
  norm_num [triP2, wmesh, List.getD]

theorem wNg : triNg wmesh 0 = ⟨0, 0, 4⟩ := by
  rw [triNg, wP0, wP1, wP2]
  norm_num [Vec3.cross]

theorem wNDot : triNDotRay wmesh 0 wray = -4 := by
  rw [triNDotRay, wNg]
  norm_num [wray, Ray.new, Vec3.dot]

theorem wT : triT wmesh 0 wray = 2 := by
  unfold triT triD triNDotRay
  rw [wNg, wP0]
  norm_num [wray, Ray.new, Vec3.zero, Vec3.dot]

theorem wHitP : triHitP wmesh 0 wray = ⟨0, 0, -2⟩ := by
  unfold triHitP
  rw [wT]
  norm_num [wray, Ray.new, Vec3.zero]

theorem wC0 : triC0 wmesh 0 wray = ⟨0, 0, 2⟩ := by
  unfold triC0
  rw [wP0, wP1, wHitP]
  norm_num [Vec3.cross]

theorem wC1 : triC1 wmesh 0 wray = ⟨0, 0, 1⟩ := by
  unfold triC1
  rw [wP1, wP2, wHitP]
  norm_num [Vec3.cross]

theorem wC2 : triC2 wmesh 0 wray = ⟨0, 0, 1⟩ := by
  unfold triC2
  rw [wP0, wP2, wHitP]
  norm_num [Vec3.cross]

theorem wArea : triArea wmesh 0 = 2 := by
  unfold triArea Vec3.length Vec3.lengthSq Vec3.dot
  rw [wNg]
  have h16 : ((0 : ℝ) * 0 + 0 * 0 + 4 * 4) = 4 ^ 2 := by norm_num
  rw [h16, Real.sqrt_sq (by norm_num : (0 : ℝ) ≤ 4)]
  norm_num

theorem wU : triU wmesh 0 wray = 1 / 4 := by
  unfold triU
  rw [wC1, wArea]
  norm_num [Vec3.length, Vec3.lengthSq, Vec3.dot, Real.sqrt_one]

theorem wV : triV wmesh 0 wray = 1 / 4 := by
  unfold triV
  rw [wC2, wArea]
  norm_num [Vec3.length, Vec3.lengthSq, Vec3.dot, Real.sqrt_one]

theorem wtri_eval : Triangle.intersect wmesh 0 wray Hit.default = .hit wtriHit := by
  unfold Triangle.intersect
  rw [wNDot, wT, wNg, wC0, wC1, wC2, wU, wV]
  rw [if_neg (by norm_num : ¬|(-4 : ℝ)| < 1 / 10000)]
  rw [if_neg (show ¬((2 : ℝ) < wray.tMin ∨ ((2 : ℝ) : RVal) > wray.tMax) by
    rw [not_or]
    exact ⟨by norm_num [wray, Ray.new], by simp [wray, Ray.new]⟩)]
  rw [if_neg (by norm_num [Vec3.dot] :
    ¬(⟨0, 0, 4⟩ : Vec3).dot (⟨0, 0, 2⟩ : Vec3) < 0)]
  rw [if_neg (by norm_num [Vec3.dot] :
    ¬(⟨0, 0, 4⟩ : Vec3).dot (⟨0, 0, 1⟩ : Vec3) < 0)]
  rw [if_neg (by norm_num [Vec3.dot] :
    ¬(⟨0, 0, 4⟩ : Vec3).dot (⟨0, 0, 1⟩ : Vec3) < 0)]
  rw [if_neg (by norm_num : ¬¬((0 : ℝ) ≤ 1 / 4 ∧ (1 : ℝ) / 4 ≤ 1))]
  rw [if_neg (by norm_num : ¬¬((0 : ℝ) ≤ 1 / 4 ∧ (1 : ℝ) / 4 ≤ 1))]
  rfl

theorem wfront : wtriHit.front = true := by
  unfold wtriHit Triangle.record
  dsimp only
  rw [wNg]
  simp [wray, Ray.new, Vec3.dot, decide_eq_true_eq]

theorem wtriT : wtriHit.t = ((2 : ℝ) : RVal) := by
  unfold wtriHit Triangle.record
  dsimp only
  rw [wT]
  simp [Hit.default]

theorem wAabb : Triangle.aabb wmesh 0 = ⟨⟨-1, -1, -2⟩, ⟨1, 1, -2⟩⟩ := by
  unfold Triangle.aabb
  rw [wP0, wP1, wP2]
  norm_num [Vec3.minv, Vec3.maxv, min_def, max_def]

theorem wBound :
    nodeBound (.triangleMesh wmesh) = some ⟨⟨-1, -1, -2⟩, ⟨1, 1, -2⟩⟩ := by
  unfold nodeBound nodeL2
  dsimp only
  rw [show wmesh.triCount = 1 from rfl, show List.range 1 = [0] from rfl]
  simp only [List.map_cons, List.map_nil, List.foldl_cons, List.foldl_nil]
  rw [show Shape.aabb (Shape.triangle wmesh 0) = Triangle.aabb wmesh 0 from rfl, wAabb]
  rfl

theorem wcollect : collectL1 [SceneNode.mk (.triangleMesh wmesh) []] = [wl1] := by
  rw [collectL1.eq_def]
  dsimp only
  rw [show (SceneNode.mk (.triangleMesh wmesh) []).prim = .triangleMesh wmesh from rfl,
    show (SceneNode.mk (.triangleMesh wmesh) []).children = [] from rfl]
  rw [List.nil_append, collectL1.eq_def]
  dsimp only
  rw [wBound]
  simp only [nodeL2]
  rw [show wmesh.triCount = 1 from rfl, show List.range 1 = [0] from rfl]
  simp [wl1]

theorem wbox_hit :
    rayHitsAABB wray (some ⟨⟨-1, -1, -2⟩, ⟨1, 1, -2⟩⟩) := by
  show rayHitsBox wray ⟨⟨-1, -1, -2⟩, ⟨1, 1, -2⟩⟩
  refine ⟨2, by norm_num, ?_⟩
  norm_num [Ray.at, wray, Ray.new, Vec3.zero, Box.mem]

theorem waccel_eval :
    (Accelerator.build wscene).intersect wray Hit.default = some (true, wfinalHit) := by
  have hb : Accelerator.build wscene = ⟨[wl1]⟩ := by
    unfold Accelerator.build wscene
    dsimp only
    rw [wcollect]
  rw [hb]
  unfold Accelerator.intersect
  have hdec : decide (rayHitsAABB wray (L1Node.bound wl1)) = true :=
    decide_eq_true (by rw [show L1Node.bound wl1 =
      some ⟨⟨-1, -1, -2⟩, ⟨1, 1, -2⟩⟩ from rfl]; exact wbox_hit)
  have htrav : bvhTraverse wray L1Node.bound [wl1] = [wl1] := by
    simp [bvhTraverse, hdec]
  rw [htrav]
  rw [l1Scan.eq_def]
  dsimp only [wl1]
  rw [show wmesh.worldToObject = Affine.identity from rfl, transformRay_identity]
  have hdec2 : decide (rayHitsAABB wray (some (Shape.aabb (Shape.triangle wmesh 0)))) = true :=
    decide_eq_true (by rw [show Shape.aabb (Shape.triangle wmesh 0) =
      Triangle.aabb wmesh 0 from rfl, wAabb]; exact wbox_hit)
  have htrav2 : bvhTraverse wray (fun sh => some sh.aabb)
      [Shape.triangle wmesh 0] = [Shape.triangle wmesh 0] := by
    simp [bvhTraverse, hdec2]
  rw [htrav2]
  rw [l2Scan.eq_def]
  dsimp only
  rw [show Shape.intersect (Shape.triangle wmesh 0) wray Hit.default =
    .hit wtriHit from wtri_eval]
  dsimp only
  rw [wfront]
  rw [if_pos rfl]
  rw [wtriT]
  rw [if_pos (show ((2 : ℝ) : RVal) < ⊤ from WithTop.coe_lt_top 2)]
  rw [l2Scan.eq_def]
  dsimp only
  rw [l1Scan.eq_def]
  dsimp only
  rw [← wtriT, ← wfront]
  rfl

/-- Witness for C4: the empty scene misses every ray, returning the sky
gradient; the witness triangle scene intersects, and at exhausted bounce
depth li returns black. -/
theorem C4_li_sky_and_depth_cap_witness :
    (Accelerator.build SceneEngine.new).intersect (Ray.new Vec3.zero ⟨0, 1, 0⟩)
        Hit.default = some (false, Hit.default) ∧
    (PathIntegrator.new 8).li (Accelerator.build SceneEngine.new) (fun _ => ⟨0, 0⟩)
        (Ray.new Vec3.zero ⟨0, 1, 0⟩) 0 =
      some (skyColor (Ray.new Vec3.zero ⟨0, 1, 0⟩)) ∧
    (Accelerator.build wscene).intersect wray Hit.default = some (true, wfinalHit) ∧
    (PathIntegrator.new 0).li (Accelerator.build wscene) (fun _ => ⟨0, 0⟩) wray 5 =
      some Color.black := by
  have h1 := emptyAccel_intersect (Ray.new Vec3.zero ⟨0, 1, 0⟩) Hit.default
  refine ⟨h1, ?_, waccel_eval, ?_⟩
  · exact (C4_li_sky_and_depth_cap (PathIntegrator.new 8) _ (fun _ => ⟨0, 0⟩) _ 0).1 _ h1
  · exact (C4_li_sky_and_depth_cap (PathIntegrator.new 0) _ (fun _ => ⟨0, 0⟩) wray 5).2 _
      waccel_eval (by simp [PathIntegrator.new])

theorem rv_min_top (x : RVal) : min x ⊤ = x := min_eq_left le_top

theorem sphere_record_t (s : Sphere) (r : Ray) (t : ℝ) :
    (s.record r Hit.default t).t = (t : RVal) := by
  simp [Sphere.record, Hit.default, rv_min_top]

theorem triangle_record_t (m : TriangleMesh) (id : ℕ) (r : Ray) :
    (Triangle.record m id r Hit.default).t = ((triT m id r : ℝ) : RVal) := by
  simp [Triangle.record, Hit.default, rv_min_top]

/-- A hit written over a fresh default record always carries a finite
(coerced real) parametric distance. -/
theorem hit_t_coe (sh : Shape) (r : Ray) (tmp : Hit)
    (hres : sh.intersect r Hit.default = .hit tmp) : ∃ t : ℝ, tmp.t = (t : RVal) := by
  cases sh with
  | sphere s =>
    replace hres : s.intersect r Hit.default = .hit tmp := hres
    unfold Sphere.intersect at hres
    dsimp only at hres
    split_ifs at hres
    all_goals
      first
      | exact IResult.noConfusion hres
      | (injection hres with hrec; subst hrec;
         exact ⟨_, sphere_record_t s r _⟩)
  | triangle m id =>
    replace hres : Triangle.intersect m id r Hit.default = .hit tmp := hres
    unfold Triangle.intersect at hres
    split_ifs at hres
    all_goals
      first
      | exact IResult.noConfusion hres
      | (injection hres with hrec; subst hrec;
         exact ⟨_, triangle_record_t m id r⟩)

/-- The inner scan preserves the frame/effect invariant. -/
theorem l2Scan_goodSt (r : Ray) (prim : Primitive) (hit0 : Hit)
    (shapes : List Shape) :
    ∀ st st', GoodSt hit0 st → l2Scan r prim shapes st = some st' →
      GoodSt hit0 st' := by
  induction shapes with
  | nil =>
    intro st st' hg hs
    rw [l2Scan] at hs
    injection hs with hs
    exact hs ▸ hg
  | cons sh rest ih =>
    intro st st' hg hs
    obtain ⟨anyHit, closest, best⟩ := st
    rw [l2Scan] at hs
    rcases hres : sh.intersect r Hit.default with _ | _ | tmp <;> rw [hres] at hs <;>
      dsimp only at hs
    · exact Option.noConfusion hs
    · exact ih _ _ hg hs
    · by_cases hf : tmp.front = true
      · rw [if_pos hf] at hs
        by_cases hcl : tmp.t < closest
        · rw [if_pos hcl] at hs
          refine ih _ _ ⟨fun hfalse => Bool.noConfusion hfalse, fun _ => ?_⟩ hs
          exact ⟨rfl, rfl, hf⟩
        · rw [if_neg hcl] at hs
          cases anyHit with
          | false =>
            obtain ⟨t, ht2⟩ := hit_t_coe sh r tmp hres
            obtain ⟨htop, -⟩ := hg.1 rfl
            dsimp only at htop
            rw [ht2, htop] at hcl
            exact absurd (WithTop.coe_lt_top t) hcl
          | true =>
            refine ih _ _ ⟨fun hfalse => Bool.noConfusion hfalse, fun _ => ?_⟩ hs
            exact hg.2 rfl
      · rw [if_neg hf] at hs
        exact ih _ _ hg hs

/-- The outer scan preserves the frame/effect invariant. -/
theorem l1Scan_goodSt (r : Ray) (hit0 : Hit) (nodes : List L1Node) :
    ∀ st st', GoodSt hit0 st → l1Scan r nodes st = some st' → GoodSt hit0 st' := by
  induction nodes with
  | nil =>
    intro st st' hg hs
    rw [l1Scan] at hs
    injection hs with hs
    exact hs ▸ hg
  | cons l1 rest ih =>
    intro st st' hg hs
    rw [l1Scan] at hs
    split at hs
    · dsimp only at hs
      split at hs
      · exact Option.noConfusion hs
      · next st2 h2 => exact ih _ _ (l2Scan_goodSt _ _ hit0 _ _ _ hg h2) hs
    · exact Option.noConfusion hs

/-- C10: a false return leaves the caller's hit record exactly as
passed; a true return carries both back-references and front = true. -/
theorem C10_intersect_frame (a : Accelerator) (r : Ray) (hit0 : Hit) :
    (∀ h, a.intersect r hit0 = some (false, h) → h = hit0) ∧
    (∀ h, a.intersect r hit0 = some (true, h) →
      h.primitive.isSome = true ∧ h.shape.isSome = true ∧ h.front = true) := by
  have hinit : GoodSt hit0 (false, ⊤, hit0) :=
    ⟨fun _ => ⟨rfl, rfl⟩, fun htrue => Bool.noConfusion htrue⟩
  constructor
  · intro h hres
    unfold Accelerator.intersect at hres
    rcases hscan : l1Scan r (bvhTraverse r L1Node.bound a.l1nodes) (false, ⊤, hit0)
      with _ | ⟨b, cl, hh⟩ <;> rw [hscan] at hres
    · exact Option.noConfusion hres
    · have hg := l1Scan_goodSt r hit0 _ _ _ hinit hscan
      dsimp only at hres
      injection hres with hres
      obtain ⟨hb, hh'⟩ := Prod.mk.injEq .. ▸ hres
      subst hh'
      exact (hg.1 hb).2
  · intro h hres
    unfold Accelerator.intersect at hres
    rcases hscan : l1Scan r (bvhTraverse r L1Node.bound a.l1nodes) (false, ⊤, hit0)
      with _ | ⟨b, cl, hh⟩ <;> rw [hscan] at hres
    · exact Option.noConfusion hres
    · have hg := l1Scan_goodSt r hit0 _ _ _ hinit hscan
      dsimp only at hres
      injection hres with hres
      obtain ⟨hb, hh'⟩ := Prod.mk.injEq .. ▸ hres
      subst hh'
      exact hg.2 hb

/-- Witness for C10: on the empty scene the hit is returned untouched;
on the witness triangle scene the returned hit carries back-references
and front = true. -/
theorem C10_intersect_frame_witness :
    (Accelerator.build SceneEngine.new).intersect (Ray.new Vec3.zero ⟨1, 0, 0⟩)
        Hit.default = some (false, Hit.default) ∧
    Hit.default = Hit.default ∧
    (Accelerator.build wscene).intersect wray Hit.default = some (true, wfinalHit) ∧
    wfinalHit.primitive.isSome = true ∧ wfinalHit.shape.isSome = true ∧
    wfinalHit.front = true := by
  have h1 := emptyAccel_intersect (Ray.new Vec3.zero ⟨1, 0, 0⟩) Hit.default
  refine ⟨h1, ?_, waccel_eval, ?_⟩
  · exact (C10_intersect_frame (Accelerator.build SceneEngine.new)
      (Ray.new Vec3.zero ⟨1, 0, 0⟩) Hit.default).1 _ h1
  · exact (C10_intersect_frame (Accelerator.build wscene) wray Hit.default).2 _
      waccel_eval

theorem c7sphere_eval :
    Shape.intersect (.sphere ⟨⟨0, 0, -2⟩, 1⟩) (Ray.new Vec3.zero ⟨0, 0, -1⟩)
      Hit.default = .hit c7hit := by
  show Sphere.intersect _ _ _ = _
  unfold Sphere.intersect
  dsimp only
  norm_num [Ray.new, Vec3.zero, Vec3.dot, Vec3.lengthSq, Real.sqrt_one, not_top_lt,
    c7hit]

/-- Witness for C7: the concrete sphere intersection at t = 1 carries a
front flag agreeing with the orientation test. -/
theorem C7_front_orientation_witness :
    Shape.intersect (.sphere ⟨⟨0, 0, -2⟩, 1⟩) (Ray.new Vec3.zero ⟨0, 0, -1⟩)
        Hit.default = .hit c7hit ∧
      (c7hit.front = true ↔
        0 < c7hit.ng.dot (-(Ray.new Vec3.zero ⟨0, 0, -1⟩).direction)) :=
  ⟨c7sphere_eval, C7_front_orientation _ _ _ _ c7sphere_eval⟩

/-- C5 counterexample: a single accumulated sample of the constant color
(1/2, 1/2, 1/2) reads back as 127/255, not 1/2 - the RGBA8 quantization
of Film storage is lossy, so the running mean is not exact for arbitrary
constant colors in the unit cube. -/
theorem C5_film_mean_counterexample :
    Film.pixel (accumLoop 0 0 ⟨1 / 2, 1 / 2, 1 / 2⟩ (Film.new 1 1) 1) 0 0 ≠
      ⟨1 / 2, 1 / 2, 1 / 2⟩ := by
  unfold accumLoop accumLoop accumStep
  norm_num [Film.new, Film.pixel, Film.writePixel, Color.toRGBA8, quantize,
    List.replicate, List.getD, max_def, min_def, Color.mk.injEq,
    show Int.toNat 127 = 127 from rfl]

theorem quantize_byte (k : ℕ) (hk : k ≤ 255) : quantize ((k : ℝ) / 255) = k := by
  unfold quantize
  have h1 : (k : ℝ) / 255 * 255 = (k : ℝ) := by field_simp
  rw [h1, max_eq_left (by positivity), min_eq_left (by exact_mod_cast hk),
    Int.floor_natCast]
  exact Int.toNat_natCast k

theorem film_writePixel_dim (f : Film) (x y : ℕ) (c : RGBA) :
    (f.writePixel x y c).dimension = f.dimension := rfl

theorem film_writePixel_len (f : Film) (x y : ℕ) (c : RGBA) :
    (f.writePixel x y c).data.length = f.data.length := List.length_set ..

theorem accumLoop_dim (x y : ℕ) (c : Color) (film : Film) (n : ℕ) :
    (accumLoop x y c film n).dimension = film.dimension ∧
      (accumLoop x y c film n).data.length = film.data.length := by
  induction n with
  | zero => exact ⟨rfl, rfl⟩
  | succ n ih =>
    rw [accumLoop]
    exact ⟨ih.1, (film_writePixel_len ..).trans ih.2⟩

theorem pixel_after_write (f : Film) (w h x y : ℕ) (hdim : f.dimension = (w, h))
    (hlen : f.data.length = w * h) (hx : x < w) (hy : y < h) (k1 k2 k3 : ℕ)
    (hk1 : k1 ≤ 255) (hk2 : k2 ≤ 255) (hk3 : k3 ≤ 255) :
    Film.pixel
        (f.writePixel x y
          (Color.toRGBA8 ⟨(k1 : ℝ) / 255, (k2 : ℝ) / 255, (k3 : ℝ) / 255⟩)) x y =
      ⟨(k1 : ℝ) / 255, (k2 : ℝ) / 255, (k3 : ℝ) / 255⟩ := by
  have hidx : y * w + x < f.data.length := by
    rw [hlen, Nat.mul_comm w h]
    calc y * w + x < y * w + w := by omega
    _ = (y + 1) * w := by ring
    _ ≤ h * w := Nat.mul_le_mul_right w hy
  unfold Film.pixel Film.writePixel
  dsimp only
  rw [hdim]
  dsimp only
  rw [List.getD_eq_getElem?_getD, List.getElem?_set_eq_of_lt _ hidx]
  rw [show Color.toRGBA8 ⟨(k1 : ℝ) / 255, (k2 : ℝ) / 255, (k3 : ℝ) / 255⟩ =
    (k1, k2, k3, 255) by
      unfold Color.toRGBA8
      rw [quantize_byte k1 hk1, quantize_byte k2 hk2, quantize_byte k3 hk3]]
  rfl

/-- C5 (amended): for a constant color whose channels are exact
multiples of 1/255 (bytes k/255 with k at most 255), the render loop's
progressive accumulation is exact: after any positive number of
identical samples, Film::pixel returns exactly that color. -/
theorem C5_film_running_mean (k1 k2 k3 : ℕ) (hk1 : k1 ≤ 255) (hk2 : k2 ≤ 255)
    (hk3 : k3 ≤ 255) (w h x y : ℕ) (hx : x < w) (hy : y < h) (N : ℕ)
    (hN : 1 ≤ N) :
    Film.pixel
        (accumLoop x y ⟨(k1 : ℝ) / 255, (k2 : ℝ) / 255, (k3 : ℝ) / 255⟩
          (Film.new w h) N) x y =
      ⟨(k1 : ℝ) / 255, (k2 : ℝ) / 255, (k3 : ℝ) / 255⟩ := by
  induction N with
  | zero => omega
  | succ n ih =>
    rw [accumLoop]
    have hdim := (accumLoop_dim x y ⟨(k1 : ℝ) / 255, (k2 : ℝ) / 255, (k3 : ℝ) / 255⟩
      (Film.new w h) n).1
    have hlen := (accumLoop_dim x y ⟨(k1 : ℝ) / 255, (k2 : ℝ) / 255, (k3 : ℝ) / 255⟩
      (Film.new w h) n).2
    rw [show (Film.new w h).dimension = (w, h) from rfl] at hdim
    rw [show (Film.new w h).data.length = w * h from by
      unfold Film.new; exact List.length_replicate ..] at hlen
    rcases Nat.eq_zero_or_pos n with hzero | hpos
    · subst hzero
      unfold accumStep
      rw [if_pos rfl]
      exact pixel_after_write _ w h x y hdim hlen hx hy k1 k2 k3 hk1 hk2 hk3
    · have hp := ih hpos
      unfold accumStep
      rw [if_neg (by omega : ¬n + 1 = 1)]
      dsimp only
      rw [hp]
      have hc : (⟨(k1 : ℝ) / 255, (k2 : ℝ) / 255, (k3 : ℝ) / 255⟩ : Color) +
          ((⟨(k1 : ℝ) / 255, (k2 : ℝ) / 255, (k3 : ℝ) / 255⟩ : Color) -
            ⟨(k1 : ℝ) / 255, (k2 : ℝ) / 255, (k3 : ℝ) / 255⟩).divs ((n + 1 : ℕ) : ℝ) =
          ⟨(k1 : ℝ) / 255, (k2 : ℝ) / 255, (k3 : ℝ) / 255⟩ := by
        simp [Color.divs, Color.mk.injEq]
      rw [hc]
      exact pixel_after_write _ w h x y hdim hlen hx hy k1 k2 k3 hk1 hk2 hk3

/-- Witness for C5 (amended): the byte color 51/255 accumulated three
times reads back exactly. -/
theorem C5_film_running_mean_witness :
    Film.pixel
        (accumLoop 0 0 ⟨((51 : ℕ) : ℝ) / 255, ((51 : ℕ) : ℝ) / 255, ((51 : ℕ) : ℝ) / 255⟩
          (Film.new 1 1) 3) 0 0 =
      ⟨((51 : ℕ) : ℝ) / 255, ((51 : ℕ) : ℝ) / 255, ((51 : ℕ) : ℝ) / 255⟩ :=
  C5_film_running_mean 51 51 51 (by norm_num) (by norm_num) (by norm_num) 1 1 0 0
    (by norm_num) (by norm_num) 3 (by norm_num)

theorem quad_expand (o c d : Vec3) (t : ℝ) :
    ((o + t • d) - c).lengthSq =
      d.lengthSq * t ^ 2 + 2 * ((o - c).dot d) * t + (o - c).lengthSq := by
  simp [Vec3.lengthSq, Vec3.dot]
  ring

/-- Scalar facts about the sphere quadratic a t^2 + 2 hb t + cc with
a > 0, value positive at 0 (cc > 0) and negative at some u > 0: the
discriminant is positive, the smaller root is positive, and it is a
root. -/
theorem sphere_quadratic_facts (a hb cc u : ℝ) (ha : 0 < a) (hcc : 0 < cc)
    (hu : 0 < u) (hfu : a * u ^ 2 + 2 * hb * u + cc < 0) :
    0 < hb * hb - a * cc ∧
    0 < (-hb - Real.sqrt (hb * hb - a * cc)) / a ∧
    a * ((-hb - Real.sqrt (hb * hb - a * cc)) / a) ^ 2 +
      2 * hb * ((-hb - Real.sqrt (hb * hb - a * cc)) / a) + cc = 0 := by
  have hdet : 0 < hb * hb - a * cc := by
    nlinarith [sq_nonneg (a * u + hb), mul_pos ha hcc,
      mul_pos ha (show 0 < -(a * u ^ 2 + 2 * hb * u + cc) by linarith)]
  have hsq2 : Real.sqrt (hb * hb - a * cc) ^ 2 = hb * hb - a * cc :=
    Real.sq_sqrt hdet.le
  have hsqpos : 0 < Real.sqrt (hb * hb - a * cc) := Real.sqrt_pos.mpr hdet
  set sq := Real.sqrt (hb * hb - a * cc) with hsqdef
  have hfac_neg : (a * u + hb - sq) * (a * u + hb + sq) < 0 := by
    have hface : (a * u + hb - sq) * (a * u + hb + sq) =
        a * (a * u ^ 2 + 2 * hb * u + cc) := by
      linear_combination (-1 : ℝ) * hsq2
    rw [hface]
    exact mul_neg_of_pos_of_neg ha hfu
  have hlo : a * u + hb - sq < 0 := by nlinarith
  have hhi : 0 < a * u + hb + sq := by nlinarith
  have htau2 : 0 < -hb + sq := by nlinarith [mul_pos ha hu]
  have htautau : (-hb - sq) * (-hb + sq) = a * cc := by
    linear_combination (-1 : ℝ) * hsq2
  have htau1 : 0 < -hb - sq := by nlinarith [mul_pos ha hcc]
  refine ⟨hdet, div_pos htau1 ha, ?_⟩
  have hexp : a * ((-hb - sq) / a) ^ 2 + 2 * hb * ((-hb - sq) / a) + cc =
      ((-hb - sq) ^ 2 + 2 * hb * (-hb - sq) + a * cc) / a := by
    field_simp
    ring
  rw [hexp, show (-hb - sq) ^ 2 + 2 * hb * (-hb - sq) + a * cc = 0 by
    linear_combination hsq2, zero_div]

/-- C2: for a sphere of positive radius, a ray origin strictly outside
it and a direction that passes through the interior at some positive
parameter (with the default bounds t_min = 0, t_max = INFINITY),
Sphere::intersect reports a hit whose t is positive, whose hit point is
origin + t * direction at distance exactly radius from the center, and
whose ng is the normalized offset from the center. -/
theorem C2_sphere_soundness (s : Sphere) (o d : Vec3) (hr : 0 < s.radius)
    (hout : s.radius * s.radius < (o - s.center).lengthSq)
    (hthrough : ∃ u : ℝ, 0 < u ∧
      ((o + u • d) - s.center).lengthSq < s.radius * s.radius) :
    ∃ (h : Hit) (t : ℝ), Sphere.intersect s (Ray.new o d) Hit.default = .hit h ∧
      h.t = (t : RVal) ∧ 0 < t ∧ h.p = o + t • d ∧
      (h.p - s.center).length = s.radius ∧
      h.ng = (h.p - s.center).normalize := by
  obtain ⟨u, hu, hin⟩ := hthrough
  have hcc : 0 < (o - s.center).lengthSq - s.radius * s.radius := by linarith
  have hfu : d.lengthSq * u ^ 2 + 2 * ((o - s.center).dot d) * u +
      ((o - s.center).lengthSq - s.radius * s.radius) < 0 := by
    rw [quad_expand] at hin
    linarith
  have ha : 0 < d.lengthSq := by
    have ha0 : 0 ≤ d.lengthSq := by
      unfold Vec3.lengthSq Vec3.dot
      nlinarith [mul_self_nonneg d.x, mul_self_nonneg d.y, mul_self_nonneg d.z]
    rcases ha0.lt_or_eq with h | h
    · exact h
    · exfalso
      have hxyz : d.x = 0 ∧ d.y = 0 ∧ d.z = 0 := by
        have h' := h.symm
        unfold Vec3.lengthSq Vec3.dot at h'
        refine ⟨?_, ?_, ?_⟩ <;>
          nlinarith [mul_self_nonneg d.x, mul_self_nonneg d.y, mul_self_nonneg d.z]
      have hb0 : (o - s.center).dot d = 0 := by
        unfold Vec3.dot
        rw [hxyz.1, hxyz.2.1, hxyz.2.2]
        ring
      rw [← h, hb0] at hfu
      nlinarith
  obtain ⟨hdet, htpos, hroot⟩ := sphere_quadratic_facts d.lengthSq
    ((o - s.center).dot d) ((o - s.center).lengthSq - s.radius * s.radius) u
    ha hcc hu hfu
  refine ⟨Sphere.record s (Ray.new o d) Hit.default
      ((-((o - s.center).dot d) -
        Real.sqrt (((o - s.center).dot d) * ((o - s.center).dot d) -
          d.lengthSq * ((o - s.center).lengthSq - s.radius * s.radius))) / d.lengthSq),
    _, ?_, sphere_record_t .., ?_, rfl, ?_, rfl⟩
  · unfold Sphere.intersect
    dsimp only [Ray.new]
    split_ifs with h1 h2 h3
    · exact absurd h1 (not_lt.mpr hdet.le)
    · exact absurd h2 (by rw [not_or]; exact ⟨not_lt.mpr htpos.le, not_top_lt⟩)
    · exact absurd h2 (by rw [not_or]; exact ⟨not_lt.mpr htpos.le, not_top_lt⟩)
    · rfl
  · exact htpos
  · have hp : (Sphere.record s (Ray.new o d) Hit.default
        ((-((o - s.center).dot d) -
          Real.sqrt (((o - s.center).dot d) * ((o - s.center).dot d) -
            d.lengthSq * ((o - s.center).lengthSq - s.radius * s.radius))) /
          d.lengthSq)).p =
        o + ((-((o - s.center).dot d) -
          Real.sqrt (((o - s.center).dot d) * ((o - s.center).dot d) -
            d.lengthSq * ((o - s.center).lengthSq - s.radius * s.radius))) /
          d.lengthSq) • d := rfl
    rw [hp]
    unfold Vec3.length
    rw [quad_expand]
    rw [show d.lengthSq * ((-((o - s.center).dot d) -
          Real.sqrt (((o - s.center).dot d) * ((o - s.center).dot d) -
            d.lengthSq * ((o - s.center).lengthSq - s.radius * s.radius))) /
          d.lengthSq) ^ 2 +
        2 * ((o - s.center).dot d) * ((-((o - s.center).dot d) -
          Real.sqrt (((o - s.center).dot d) * ((o - s.center).dot d) -
            d.lengthSq * ((o - s.center).lengthSq - s.radius * s.radius))) /
          d.lengthSq) + (o - s.center).lengthSq = s.radius * s.radius by
      linarith [hroot]]
    exact Real.sqrt_mul_self hr.le

/-- Witness for C2: the unit sphere at (0, 0, -2) viewed from the
origin along -z is hit at positive t with the hit point on the sphere. -/
theorem C2_sphere_soundness_witness :
    (0 : ℝ) < 1 ∧
    (1 : ℝ) * 1 < (Vec3.zero - (⟨0, 0, -2⟩ : Vec3)).lengthSq ∧
    (0 : ℝ) < 2 ∧
    ((Vec3.zero + (2 : ℝ) • (⟨0, 0, -1⟩ : Vec3)) - (⟨0, 0, -2⟩ : Vec3)).lengthSq <
      (1 : ℝ) * 1 ∧
    ∃ (h : Hit) (t : ℝ),
      Sphere.intersect ⟨⟨0, 0, -2⟩, 1⟩ (Ray.new Vec3.zero ⟨0, 0, -1⟩) Hit.default =
        .hit h ∧
      h.t = (t : RVal) ∧ 0 < t ∧ h.p = Vec3.zero + t • (⟨0, 0, -1⟩ : Vec3) ∧
      (h.p - (⟨0, 0, -2⟩ : Vec3)).length = 1 ∧
      h.ng = (h.p - (⟨0, 0, -2⟩ : Vec3)).normalize := by
  refine ⟨one_pos, by norm_num [Vec3.lengthSq, Vec3.dot, Vec3.zero], by norm_num,
    by norm_num [Vec3.lengthSq, Vec3.dot, Vec3.zero], ?_⟩
  exact C2_sphere_soundness ⟨⟨0, 0, -2⟩, 1⟩ Vec3.zero ⟨0, 0, -1⟩ one_pos
    (by norm_num [Vec3.lengthSq, Vec3.dot, Vec3.zero])
    ⟨2, by norm_num, by norm_num [Vec3.lengthSq, Vec3.dot, Vec3.zero]⟩

theorem Vec3.smul_smul (k l : ℝ) (v : Vec3) : k • (l • v) = (k * l) • v := by
  simp only [Vec3.smul_def]
  rw [Vec3.mk.injEq]
  refine ⟨by ring, by ring, by ring⟩

theorem Vec3.length_smul (k : ℝ) (v : Vec3) :
    (k • v).length = |k| * v.length := by
  unfold Vec3.length Vec3.lengthSq Vec3.dot
  simp only [Vec3.smul_def]
  rw [show k * v.x * (k * v.x) + k * v.y * (k * v.y) + k * v.z * (k * v.z) =
    k ^ 2 * (v.x * v.x + v.y * v.y + v.z * v.z) by ring]
  rw [Real.sqrt_mul (sq_nonneg k), Real.sqrt_sq_eq_abs]

theorem lengthSq_pos_of_dot_ne (n d : Vec3) (h : n.dot d ≠ 0) :
    0 < n.lengthSq := by
  rcases lt_or_eq_of_le (show 0 ≤ n.lengthSq by
    unfold Vec3.lengthSq Vec3.dot
    nlinarith [mul_self_nonneg n.x, mul_self_nonneg n.y, mul_self_nonneg n.z]) with
    hlt | heq
  · exact hlt
  · exfalso
    have hxyz : n.x = 0 ∧ n.y = 0 ∧ n.z = 0 := by
      have h' := heq.symm
      unfold Vec3.lengthSq Vec3.dot at h'
      refine ⟨?_, ?_, ?_⟩ <;>
        nlinarith [mul_self_nonneg n.x, mul_self_nonneg n.y, mul_self_nonneg n.z]
    exact h (by unfold Vec3.dot; rw [hxyz.1, hxyz.2.1, hxyz.2.2]; ring)

set_option maxHeartbeats 4000000 in
theorem bary_id0 (a b c p : Vec3) :
    (((b - a).cross (c - a)).lengthSq) • ((b - a).cross (p - a)) -
      ((((b - a).cross (c - a)).dot ((b - a).cross (p - a)))) •
        ((b - a).cross (c - a)) =
      (-(((b - a).cross (c - a)).dot (p - a))) •
        (((b - a).cross (c - a)).cross (b - a)) := by
  obtain ⟨ax, ay, az⟩ := a
  obtain ⟨bx, by', bz⟩ := b
  obtain ⟨cx, cy, cz⟩ := c
  obtain ⟨px, py, pz⟩ := p
  simp only [Vec3.cross, Vec3.dot, Vec3.lengthSq, Vec3.sub_def, Vec3.smul_def]
  rw [Vec3.mk.injEq]
  refine ⟨by ring, by ring, by ring⟩

set_option maxHeartbeats 4000000 in
theorem bary_id1 (a b c p : Vec3) :
    (((b - a).cross (c - a)).lengthSq) • ((c - b).cross (p - b)) -
      ((((b - a).cross (c - a)).dot ((c - b).cross (p - b)))) •
        ((b - a).cross (c - a)) =
      (-(((b - a).cross (c - a)).dot (p - a))) •
        (((b - a).cross (c - a)).cross (c - b)) := by
  obtain ⟨ax, ay, az⟩ := a
  obtain ⟨bx, by', bz⟩ := b
  obtain ⟨cx, cy, cz⟩ := c
  obtain ⟨px, py, pz⟩ := p
  simp only [Vec3.cross, Vec3.dot, Vec3.lengthSq, Vec3.sub_def, Vec3.smul_def]
  rw [Vec3.mk.injEq]
  refine ⟨by ring, by ring, by ring⟩

set_option maxHeartbeats 4000000 in
theorem bary_id2 (a b c p : Vec3) :
    (((b - a).cross (c - a)).lengthSq) • ((a - c).cross (p - c)) -
      ((((b - a).cross (c - a)).dot ((a - c).cross (p - c)))) •
        ((b - a).cross (c - a)) =
      (-(((b - a).cross (c - a)).dot (p - a))) •
        (((b - a).cross (c - a)).cross (a - c)) := by
  obtain ⟨ax, ay, az⟩ := a
  obtain ⟨bx, by', bz⟩ := b
  obtain ⟨cx, cy, cz⟩ := c
  obtain ⟨px, py, pz⟩ := p
  simp only [Vec3.cross, Vec3.dot, Vec3.lengthSq, Vec3.sub_def, Vec3.smul_def]
  rw [Vec3.mk.injEq]
  refine ⟨by ring, by ring, by ring⟩

theorem bary_sum_dot (a b c p : Vec3) :
    (((b - a).cross (c - a)).dot ((b - a).cross (p - a))) +
      (((b - a).cross (c - a)).dot ((c - b).cross (p - b))) +
      (((b - a).cross (c - a)).dot ((a - c).cross (p - c))) =
      ((b - a).cross (c - a)).lengthSq := by
  obtain ⟨ax, ay, az⟩ := a
  obtain ⟨bx, by', bz⟩ := b
  obtain ⟨cx, cy, cz⟩ := c
  obtain ⟨px, py, pz⟩ := p
  simp only [Vec3.cross, Vec3.dot, Vec3.lengthSq, Vec3.sub_def]
  ring

set_option maxHeartbeats 4000000 in
theorem bary_convex_x (a b c p : Vec3) :
    (((b - a).cross (c - a)).lengthSq) * (p.x - a.x) =
      (((b - a).cross (c - a)).dot ((a - c).cross (p - c))) * (b.x - a.x) +
      (((b - a).cross (c - a)).dot ((b - a).cross (p - a))) * (c.x - a.x) +
      (((b - a).cross (c - a)).dot (p - a)) * ((b - a).cross (c - a)).x := by
  obtain ⟨ax, ay, az⟩ := a
  obtain ⟨bx, by', bz⟩ := b
  obtain ⟨cx, cy, cz⟩ := c
  obtain ⟨px, py, pz⟩ := p
  simp only [Vec3.cross, Vec3.dot, Vec3.lengthSq, Vec3.sub_def]
  ring

set_option maxHeartbeats 4000000 in
theorem bary_convex_y (a b c p : Vec3) :
    (((b - a).cross (c - a)).lengthSq) * (p.y - a.y) =
      (((b - a).cross (c - a)).dot ((a - c).cross (p - c))) * (b.y - a.y) +
      (((b - a).cross (c - a)).dot ((b - a).cross (p - a))) * (c.y - a.y) +
      (((b - a).cross (c - a)).dot (p - a)) * ((b - a).cross (c - a)).y := by
  obtain ⟨ax, ay, az⟩ := a
  obtain ⟨bx, by', bz⟩ := b
  obtain ⟨cx, cy, cz⟩ := c
  obtain ⟨px, py, pz⟩ := p
  simp only [Vec3.cross, Vec3.dot, Vec3.lengthSq, Vec3.sub_def]
  ring

set_option maxHeartbeats 4000000 in
theorem bary_convex_z (a b c p : Vec3) :
    (((b - a).cross (c - a)).lengthSq) * (p.z - a.z) =
      (((b - a).cross (c - a)).dot ((a - c).cross (p - c))) * (b.z - a.z) +
      (((b - a).cross (c - a)).dot ((b - a).cross (p - a))) * (c.z - a.z) +
      (((b - a).cross (c - a)).dot (p - a)) * ((b - a).cross (c - a)).z := by
  obtain ⟨ax, ay, az⟩ := a
  obtain ⟨bx, by', bz⟩ := b
  obtain ⟨cx, cy, cz⟩ := c
  obtain ⟨px, py, pz⟩ := p
  simp only [Vec3.cross, Vec3.dot, Vec3.lengthSq, Vec3.sub_def]
  ring

theorem Vec3.one_smul3 (v : Vec3) : (1 : ℝ) • v = v := by
  cases v
  simp [Vec3.smul_def]

theorem Vec3.sub_eq_zero3 (u v : Vec3) (h : u - v = Vec3.zero) : u = v := by
  cases u
  cases v
  simp only [Vec3.sub_def, Vec3.zero, Vec3.mk.injEq, sub_eq_zero] at h
  simp [Vec3.mk.injEq, h.1, h.2.1, h.2.2]

theorem Vec3.zero_smul3 (v : Vec3) : (0 : ℝ) • v = Vec3.zero := by
  cases v
  simp [Vec3.smul_def, Vec3.zero]

/-- The plane-intersection point of Triangle::intersect lies exactly on
the triangle's plane (real arithmetic). -/
theorem plane_membership (m : TriangleMesh) (id : ℕ) (ray : Ray)
    (hnd : triNDotRay m id ray ≠ 0) :
    (triNg m id).dot (triHitP m id ray - triP0 m id) = 0 := by
  unfold triHitP triT triD
  unfold triNDotRay at hnd ⊢
  simp only [Vec3.dot, Vec3.add_def, Vec3.smul_def, Vec3.sub_def] at hnd ⊢
  field_simp
  ring

/-- From a parallelism identity specialized by plane membership, the
edge cross product is the scalar multiple (its n-dot over n's squared
length) of the face normal. -/
theorem cv_length (n cv w : Vec3) (hS : 0 < n.lengthSq) (hnn : 0 ≤ n.dot cv)
    (hid : (n.lengthSq) • cv - (n.dot cv) • n = (-(0 : ℝ)) • w) :
    cv.length = (n.dot cv / n.lengthSq) * n.length := by
  rw [neg_zero, Vec3.zero_smul3] at hid
  have h := Vec3.sub_eq_zero3 _ _ hid
  have h2 := congrArg (fun v => ((1 : ℝ) / n.lengthSq) • v) h
  dsimp only at h2
  rw [Vec3.smul_smul, Vec3.smul_smul, one_div, inv_mul_cancel₀ (ne_of_gt hS),
    Vec3.one_smul3] at h2
  conv_lhs => rw [h2]
  rw [show (n.lengthSq)⁻¹ * n.dot cv = n.dot cv / n.lengthSq from by
    rw [div_eq_inv_mul]]
  rw [Vec3.length_smul, abs_of_nonneg (div_nonneg hnn hS.le)]

/-- Barycentric facts for a triangle whose ray is not parallel and whose
plane point passes the three (non-strict) edge tests: u, v and w all lie
in the unit interval. -/
theorem bary_facts (m : TriangleMesh) (id : ℕ) (ray : Ray)
    (hnd : triNDotRay m id ray ≠ 0)
    (h0 : 0 ≤ (triNg m id).dot (triC0 m id ray))
    (h1 : 0 ≤ (triNg m id).dot (triC1 m id ray))
    (h2 : 0 ≤ (triNg m id).dot (triC2 m id ray)) :
    0 ≤ triU m id ray ∧ triU m id ray ≤ 1 ∧ 0 ≤ triV m id ray ∧
      triV m id ray ≤ 1 ∧ 0 ≤ triW m id ray ∧ triW m id ray ≤ 1 := by
  have hq := plane_membership m id ray hnd
  have hS : 0 < (triNg m id).lengthSq := lengthSq_pos_of_dot_ne _ _ hnd
  have hL : 0 < (triNg m id).length := Real.sqrt_pos.mpr hS
  have hid1 := bary_id1 (triP0 m id) (triP1 m id) (triP2 m id) (triHitP m id ray)
  have hid2 := bary_id2 (triP0 m id) (triP1 m id) (triP2 m id) (triHitP m id ray)
  rw [show (triP1 m id - triP0 m id).cross (triP2 m id - triP0 m id) =
    triNg m id from rfl] at hid1 hid2
  rw [show (triP2 m id - triP1 m id).cross (triHitP m id ray - triP1 m id) =
    triC1 m id ray from rfl] at hid1
  rw [show (triP0 m id - triP2 m id).cross (triHitP m id ray - triP2 m id) =
    triC2 m id ray from rfl] at hid2
  rw [hq] at hid1 hid2
  have hc1 := cv_length _ _ _ hS h1 hid1
  have hc2 := cv_length _ _ _ hS h2 hid2
  have hsum := bary_sum_dot (triP0 m id) (triP1 m id) (triP2 m id)
    (triHitP m id ray)
  rw [show (triP1 m id - triP0 m id).cross (triP2 m id - triP0 m id) =
    triNg m id from rfl] at hsum
  rw [show (triP1 m id - triP0 m id).cross (triHitP m id ray - triP0 m id) =
    triC0 m id ray from rfl] at hsum
  rw [show (triP2 m id - triP1 m id).cross (triHitP m id ray - triP1 m id) =
    triC1 m id ray from rfl] at hsum
  rw [show (triP0 m id - triP2 m id).cross (triHitP m id ray - triP2 m id) =
    triC2 m id ray from rfl] at hsum
  have hu : triU m id ray =
      ((triNg m id).dot (triC1 m id ray)) / (triNg m id).lengthSq := by
    unfold triU triArea
    rw [hc1]
    field_simp
    ring
  have hv : triV m id ray =
      ((triNg m id).dot (triC2 m id ray)) / (triNg m id).lengthSq := by
    unfold triV triArea
    rw [hc2]
    field_simp
    ring
  have hu0 : 0 ≤ triU m id ray := by
    rw [hu]
    exact div_nonneg h1 hS.le
  have hv0 : 0 ≤ triV m id ray := by
    rw [hv]
    exact div_nonneg h2 hS.le
  have hu1 : triU m id ray ≤ 1 := by
    rw [hu, div_le_one hS]
    linarith
  have hv1 : triV m id ray ≤ 1 := by
    rw [hv, div_le_one hS]
    linarith
  have hw0 : 0 ≤ triW m id ray := by
    unfold triW
    rw [hu, hv]
    have hle : (triNg m id).dot (triC1 m id ray) / (triNg m id).lengthSq +
        (triNg m id).dot (triC2 m id ray) / (triNg m id).lengthSq ≤ 1 := by
      rw [div_add_div_same, div_le_one hS]
      linarith
    linarith
  have hw1 : triW m id ray ≤ 1 := by
    unfold triW
    linarith
  exact ⟨hu0, hu1, hv0, hv1, hw0, hw1⟩

/-- C8: for a non-degenerate triangle (non-parallel test passed, which
forces a nonzero face normal) and a ray whose plane point is strictly
inside (all three edge functions positive) with t in range, the
intersection succeeds - in particular neither in-code assert fires -
and the barycentric weights u, v, w = 1 - u - v all lie in the unit
interval with u + v + w = 1 exactly. -/
theorem C8_triangle_barycentric (m : TriangleMesh) (id : ℕ) (ray : Ray)
    (hit0 : Hit)
    (hnd : ¬|triNDotRay m id ray| < 1 / 10000)
    (ht : ¬(triT m id ray < ray.tMin ∨ ((triT m id ray : ℝ) : RVal) > ray.tMax))
    (hin0 : 0 < (triNg m id).dot (triC0 m id ray))
    (hin1 : 0 < (triNg m id).dot (triC1 m id ray))
    (hin2 : 0 < (triNg m id).dot (triC2 m id ray)) :
    Triangle.intersect m id ray hit0 = .hit (Triangle.record m id ray hit0) ∧
    0 ≤ triU m id ray ∧ triU m id ray ≤ 1 ∧ 0 ≤ triV m id ray ∧
    triV m id ray ≤ 1 ∧ 0 ≤ triW m id ray ∧ triW m id ray ≤ 1 ∧
    triU m id ray + triV m id ray + triW m id ray = 1 := by
  have hnd' : triNDotRay m id ray ≠ 0 := by
    intro h
    apply hnd
    rw [h, abs_zero]
    norm_num
  obtain ⟨hu0, hu1, hv0, hv1, hw0, hw1⟩ :=
    bary_facts m id ray hnd' hin0.le hin1.le hin2.le
  refine ⟨?_, hu0, hu1, hv0, hv1, hw0, hw1, by unfold triW; ring⟩
  unfold Triangle.intersect
  rw [if_neg hnd, if_neg ht, if_neg (not_lt.mpr hin0.le),
    if_neg (not_lt.mpr hin1.le), if_neg (not_lt.mpr hin2.le),
    if_neg (not_not_intro ⟨hu0, hu1⟩), if_neg (not_not_intro ⟨hv0, hv1⟩)]

/-- Witness for C8: the witness triangle with the straight -z ray has a
strictly interior plane point and barycentric weights in range. -/
theorem C8_triangle_barycentric_witness :
    0 < (triNg wmesh 0).dot (triC0 wmesh 0 wray) ∧
    0 < (triNg wmesh 0).dot (triC1 wmesh 0 wray) ∧
    0 < (triNg wmesh 0).dot (triC2 wmesh 0 wray) ∧
    (Triangle.intersect wmesh 0 wray Hit.default =
        .hit (Triangle.record wmesh 0 wray Hit.default) ∧
      0 ≤ triU wmesh 0 wray ∧ triU wmesh 0 wray ≤ 1 ∧ 0 ≤ triV wmesh 0 wray ∧
      triV wmesh 0 wray ≤ 1 ∧ 0 ≤ triW wmesh 0 wray ∧ triW wmesh 0 wray ≤ 1 ∧
      triU wmesh 0 wray + triV wmesh 0 wray + triW wmesh 0 wray = 1) := by
  have a0 : 0 < (triNg wmesh 0).dot (triC0 wmesh 0 wray) := by
    rw [wNg, wC0]
    norm_num [Vec3.dot]
  have a1 : 0 < (triNg wmesh 0).dot (triC1 wmesh 0 wray) := by
    rw [wNg, wC1]
    norm_num [Vec3.dot]
  have a2 : 0 < (triNg wmesh 0).dot (triC2 wmesh 0 wray) := by
    rw [wNg, wC2]
    norm_num [Vec3.dot]
  refine ⟨a0, a1, a2, C8_triangle_barycentric wmesh 0 wray Hit.default ?_ ?_ a0 a1 a2⟩
  · rw [wNDot]
    norm_num
  · rw [wT, not_or]
    exact ⟨by norm_num [wray, Ray.new], by simp [wray, Ray.new]⟩

theorem c3collect :
    collectL1 [SceneNode.mk (.sphere ⟨0, 0, -3⟩ 1) []] =
      [⟨[Shape.sphere ⟨⟨0, 0, -3⟩, 1⟩], some ⟨⟨-1, -1, -4⟩, ⟨1, 1, -2⟩⟩,
        .sphere ⟨0, 0, -3⟩ 1⟩] := by
  rw [collectL1.eq_def]
  dsimp only
  rw [show (SceneNode.mk (.sphere (⟨0, 0, -3⟩ : Vec3) 1) []).prim =
      .sphere ⟨0, 0, -3⟩ 1 from rfl,
    show (SceneNode.mk (.sphere (⟨0, 0, -3⟩ : Vec3) 1) []).children = [] from rfl]
  rw [List.nil_append, collectL1.eq_def]
  dsimp only
  norm_num [nodeL2, nodeBound, AABB.join, Sphere.aabb, Shape.aabb, Vec3.splat,
    L1Node.mk.injEq, Box.mk.injEq, Vec3.mk.injEq]

/-- C3: the L1 transform match of Accelerator::intersect has a todo arm
for sphere primitives; a scene holding one sphere primitive panics as
soon as a ray reaches that L1 node, instead of traversing the sphere
with the ray untransformed. -/
theorem C3_sphere_transform_todo :
    (Accelerator.build c3scene).intersect c3ray Hit.default = none := by
  have hb : Accelerator.build c3scene =
      ⟨[⟨[Shape.sphere ⟨⟨0, 0, -3⟩, 1⟩], some ⟨⟨-1, -1, -4⟩, ⟨1, 1, -2⟩⟩,
        .sphere ⟨0, 0, -3⟩ 1⟩]⟩ := by
    unfold Accelerator.build c3scene
    dsimp only
    rw [c3collect]
  rw [hb]
  unfold Accelerator.intersect
  have hdec : decide (rayHitsAABB c3ray
      (L1Node.bound ⟨[Shape.sphere ⟨⟨0, 0, -3⟩, 1⟩],
        some ⟨⟨-1, -1, -4⟩, ⟨1, 1, -2⟩⟩, .sphere ⟨0, 0, -3⟩ 1⟩)) = true :=
    decide_eq_true (show rayHitsBox c3ray ⟨⟨-1, -1, -4⟩, ⟨1, 1, -2⟩⟩ from
      ⟨3, by norm_num, by norm_num [Ray.at, c3ray, Ray.new, Vec3.zero, Box.mem]⟩)
  rw [show bvhTraverse c3ray L1Node.bound
      [⟨[Shape.sphere ⟨⟨0, 0, -3⟩, 1⟩], some ⟨⟨-1, -1, -4⟩, ⟨1, 1, -2⟩⟩,
        .sphere ⟨0, 0, -3⟩ 1⟩] =
      [⟨[Shape.sphere ⟨⟨0, 0, -3⟩, 1⟩], some ⟨⟨-1, -1, -4⟩, ⟨1, 1, -2⟩⟩,
        .sphere ⟨0, 0, -3⟩ 1⟩] from by simp [bvhTraverse, hdec]]
  rw [l1Scan.eq_def]

theorem ccollect :
    collectL1 [SceneNode.mk (.sphere ⟨0, 0, -2⟩ 1) []] =
      [⟨[Shape.sphere ⟨⟨0, 0, -2⟩, 1⟩], some ⟨⟨-1, -1, -3⟩, ⟨1, 1, -1⟩⟩,
        .sphere ⟨0, 0, -2⟩ 1⟩] := by
  rw [collectL1.eq_def]
  dsimp only
  rw [show (SceneNode.mk (.sphere (⟨0, 0, -2⟩ : Vec3) 1) []).prim =
      .sphere ⟨0, 0, -2⟩ 1 from rfl,
    show (SceneNode.mk (.sphere (⟨0, 0, -2⟩ : Vec3) 1) []).children = [] from rfl]
  rw [List.nil_append, collectL1.eq_def]
  dsimp only
  norm_num [nodeL2, nodeBound, AABB.join, Sphere.aabb, Shape.aabb, Vec3.splat,
    L1Node.mk.injEq, Box.mk.injEq, Vec3.mk.injEq]

theorem cfront : c7hit.front = true := by
  unfold c7hit Sphere.record
  dsimp only
  norm_num [Ray.new, Vec3.zero, Vec3.normalize, Vec3.length, Vec3.lengthSq,
    Vec3.dot, Real.sqrt_one, decide_eq_true_eq]

/-- C1 counterexample: on a scene holding a single sphere primitive, the
accelerator does not return the brute-force result at all - its L1
transform match panics on the sphere arm (modelled by none) - while the
brute-force scan over the scene's shapes does find a front-facing hit. -/
theorem C1_accel_brute_counterexample :
    (Accelerator.build cscene).intersect cray Hit.default = none ∧
    (bruteForce (sceneShapes cscene) cray Hit.default).1 = true := by
  constructor
  · have hb : Accelerator.build cscene =
        ⟨[⟨[Shape.sphere ⟨⟨0, 0, -2⟩, 1⟩], some ⟨⟨-1, -1, -3⟩, ⟨1, 1, -1⟩⟩,
          .sphere ⟨0, 0, -2⟩ 1⟩]⟩ := by
      unfold Accelerator.build cscene
      dsimp only
      rw [ccollect]
    rw [hb]
    unfold Accelerator.intersect
    have hdec : decide (rayHitsAABB cray
        (L1Node.bound ⟨[Shape.sphere ⟨⟨0, 0, -2⟩, 1⟩],
          some ⟨⟨-1, -1, -3⟩, ⟨1, 1, -1⟩⟩, .sphere ⟨0, 0, -2⟩ 1⟩)) = true :=
      decide_eq_true (show rayHitsBox cray ⟨⟨-1, -1, -3⟩, ⟨1, 1, -1⟩⟩ from
        ⟨2, by norm_num, by norm_num [Ray.at, cray, Ray.new, Vec3.zero, Box.mem]⟩)
    rw [show bvhTraverse cray L1Node.bound
        [⟨[Shape.sphere ⟨⟨0, 0, -2⟩, 1⟩], some ⟨⟨-1, -1, -3⟩, ⟨1, 1, -1⟩⟩,
          .sphere ⟨0, 0, -2⟩ 1⟩] =
        [⟨[Shape.sphere ⟨⟨0, 0, -2⟩, 1⟩], some ⟨⟨-1, -1, -3⟩, ⟨1, 1, -1⟩⟩,
          .sphere ⟨0, 0, -2⟩ 1⟩] from by simp [bvhTraverse, hdec]]
    rw [l1Scan.eq_def]
  · have hshapes : sceneShapes cscene =
        [(Primitive.sphere ⟨0, 0, -2⟩ 1, Shape.sphere ⟨⟨0, 0, -2⟩, 1⟩)] := by
      unfold sceneShapes cscene
      dsimp only
      rw [sceneShapesQ.eq_def]
      dsimp only
      rw [show (SceneNode.mk (.sphere (⟨0, 0, -2⟩ : Vec3) 1) []).prim =
          .sphere ⟨0, 0, -2⟩ 1 from rfl,
        show (SceneNode.mk (.sphere (⟨0, 0, -2⟩ : Vec3) 1) []).children = []
          from rfl]
      rw [List.nil_append, sceneShapesQ.eq_def]
      simp [nodeL2]
    rw [hshapes]
    unfold bruteForce
    dsimp only [List.foldl]
    unfold bruteStep
    dsimp only
    rw [show Shape.intersect (Shape.sphere ⟨⟨0, 0, -2⟩, 1⟩) cray Hit.default =
      .hit c7hit from c7sphere_eval]
    dsimp only
    rw [cfront]
    rw [if_pos rfl]
    have hct : c7hit.t = ((1 : ℝ) : RVal) := sphere_record_t _ _ _
    rw [hct]
    rw [if_pos (show ((1 : ℝ) : RVal) < ⊤ from WithTop.coe_lt_top 1)]

theorem tri_hit_guards (m : TriangleMesh) (id : ℕ) (ray : Ray) (h0 h : Hit)
    (hres : Triangle.intersect m id ray h0 = .hit h) :
    ¬|triNDotRay m id ray| < 1 / 10000 ∧
    ¬(triT m id ray < ray.tMin ∨ ((triT m id ray : ℝ) : RVal) > ray.tMax) ∧
    0 ≤ (triNg m id).dot (triC0 m id ray) ∧
    0 ≤ (triNg m id).dot (triC1 m id ray) ∧
    0 ≤ (triNg m id).dot (triC2 m id ray) := by
  unfold Triangle.intersect at hres
  split_ifs at hres with h1 h2 h3 h4 h5 h6 h7
  exact ⟨h1, h2, not_lt.mp h3, not_lt.mp h4, not_lt.mp h5⟩

theorem tri_no_crash (m : TriangleMesh) (id : ℕ) (ray : Ray) (h0 : Hit) :
    Triangle.intersect m id ray h0 ≠ .crash := by
  unfold Triangle.intersect
  split_ifs with h1 h2 h3 h4 h5 h6 h7 <;>
    try exact fun hc => IResult.noConfusion hc
  · exfalso
    have hnd' : triNDotRay m id ray ≠ 0 := fun hz => h1 (by rw [hz, abs_zero]; norm_num)
    obtain ⟨-, -, hv0, hv1, -, -⟩ :=
      bary_facts m id ray hnd' (not_lt.mp h3) (not_lt.mp h4) (not_lt.mp h5)
    exact h7 ⟨hv0, hv1⟩
  · exfalso
    have hnd' : triNDotRay m id ray ≠ 0 := fun hz => h1 (by rw [hz, abs_zero]; norm_num)
    obtain ⟨hu0, hu1, -, -, -, -⟩ :=
      bary_facts m id ray hnd' (not_lt.mp h3) (not_lt.mp h4) (not_lt.mp h5)
    exact h6 ⟨hu0, hu1⟩

theorem convex_bound (S m0 m1 m2 A B C P : ℝ) (hS : 0 < S)
    (h0 : 0 ≤ m0) (h1 : 0 ≤ m1) (h2 : 0 ≤ m2)
    (hsum : m0 + m1 + m2 = S)
    (hconv : S * (P - A) = m2 * (B - A) + m0 * (C - A)) :
    min (min A B) C ≤ P ∧ P ≤ max (max A B) C := by
  have hmA : min (min A B) C ≤ A := le_trans (min_le_left _ _) (min_le_left _ _)
  have hmB : min (min A B) C ≤ B := le_trans (min_le_left _ _) (min_le_right _ _)
  have hmC : min (min A B) C ≤ C := min_le_right _ _
  have hMA : A ≤ max (max A B) C := le_trans (le_max_left _ _) (le_max_left _ _)
  have hMB : B ≤ max (max A B) C := le_trans (le_max_right _ _) (le_max_left _ _)
  have hMC : C ≤ max (max A B) C := le_max_right _ _
  constructor
  · nlinarith [mul_nonneg h1 (sub_nonneg.mpr hmA), mul_nonneg h2 (sub_nonneg.mpr hmB),
      mul_nonneg h0 (sub_nonneg.mpr hmC)]
  · nlinarith [mul_nonneg h1 (sub_nonneg.mpr hMA), mul_nonneg h2 (sub_nonneg.mpr hMB),
      mul_nonneg h0 (sub_nonneg.mpr hMC)]

/-- A successful triangle intersection has a plane point inside the
triangle's bounding box, at a nonnegative parameter when the ray's
t_min is nonnegative. -/
theorem tri_hit_box (m : TriangleMesh) (id : ℕ) (ray : Ray) (h0 h : Hit)
    (ht0 : 0 ≤ ray.tMin)
    (hres : Triangle.intersect m id ray h0 = .hit h) :
    0 ≤ triT m id ray ∧ Box.mem (triHitP m id ray) (Triangle.aabb m id) := by
  obtain ⟨h1, h2, h3, h4, h5⟩ := tri_hit_guards m id ray h0 h hres
  rw [not_or] at h2
  have htpos : 0 ≤ triT m id ray := le_trans ht0 (not_lt.mp h2.1)
  have hnd' : triNDotRay m id ray ≠ 0 := fun hz => h1 (by rw [hz, abs_zero]; norm_num)
  have hq := plane_membership m id ray hnd'
  have hS : 0 < (triNg m id).lengthSq := lengthSq_pos_of_dot_ne _ _ hnd'
  have hsum := bary_sum_dot (triP0 m id) (triP1 m id) (triP2 m id)
    (triHitP m id ray)
  rw [show (triP1 m id - triP0 m id).cross (triP2 m id - triP0 m id) =
    triNg m id from rfl] at hsum
  rw [show (triP1 m id - triP0 m id).cross (triHitP m id ray - triP0 m id) =
    triC0 m id ray from rfl] at hsum
  rw [show (triP2 m id - triP1 m id).cross (triHitP m id ray - triP1 m id) =
    triC1 m id ray from rfl] at hsum
  rw [show (triP0 m id - triP2 m id).cross (triHitP m id ray - triP2 m id) =
    triC2 m id ray from rfl] at hsum
  have hcx := bary_convex_x (triP0 m id) (triP1 m id) (triP2 m id)
    (triHitP m id ray)
  have hcy := bary_convex_y (triP0 m id) (triP1 m id) (triP2 m id)
    (triHitP m id ray)
  have hcz := bary_convex_z (triP0 m id) (triP1 m id) (triP2 m id)
    (triHitP m id ray)
  rw [show (triP1 m id - triP0 m id).cross (triP2 m id - triP0 m id) =
    triNg m id from rfl,
    show (triP0 m id - triP2 m id).cross (triHitP m id ray - triP2 m id) =
    triC2 m id ray from rfl,
    show (triP1 m id - triP0 m id).cross (triHitP m id ray - triP0 m id) =
    triC0 m id ray from rfl, hq, zero_mul, add_zero] at hcx hcy hcz
  have hbx := convex_bound _ _ _ _ _ _ _ _ hS h3 h4 h5 hsum hcx
  have hby := convex_bound _ _ _ _ _ _ _ _ hS h3 h4 h5 hsum hcy
  have hbz := convex_bound _ _ _ _ _ _ _ _ hS h3 h4 h5 hsum hcz
  refine ⟨htpos, ?_⟩
  unfold Triangle.aabb Box.mem Vec3.minv Vec3.maxv
  dsimp only
  exact ⟨hbx.1, hbx.2, hby.1, hby.2, hbz.1, hbz.2⟩

theorem join_some_mem (p : Vec3) (b : Box) (hmem : Box.mem p b) (a : AABB) :
    ∃ bx, AABB.join a (some b) = some bx ∧ Box.mem p bx := by
  cases a with
  | none => exact ⟨b, rfl, hmem⟩
  | some a' =>
    refine ⟨_, rfl, ?_⟩
    unfold Box.mem Vec3.minv Vec3.maxv at *
    dsimp only
    exact ⟨le_trans (min_le_right _ _) hmem.1,
      le_trans hmem.2.1 (le_max_right _ _),
      le_trans (min_le_right _ _) hmem.2.2.1,
      le_trans hmem.2.2.2.1 (le_max_right _ _),
      le_trans (min_le_right _ _) hmem.2.2.2.2.1,
      le_trans hmem.2.2.2.2.2 (le_max_right _ _)⟩

theorem join_mem_mono (p : Vec3) (a : AABB) (ax : Box) (ha : a = some ax)
    (hmem : Box.mem p ax) (y : AABB) :
    ∃ bx, AABB.join a y = some bx ∧ Box.mem p bx := by
  subst ha
  cases y with
  | none => exact ⟨ax, rfl, hmem⟩
  | some y' =>
    refine ⟨_, rfl, ?_⟩
    unfold Box.mem Vec3.minv Vec3.maxv at *
    dsimp only
    exact ⟨le_trans (min_le_left _ _) hmem.1,
      le_trans hmem.2.1 (le_max_left _ _),
      le_trans (min_le_left _ _) hmem.2.2.1,
      le_trans hmem.2.2.2.1 (le_max_left _ _),
      le_trans (min_le_left _ _) hmem.2.2.2.2.1,
      le_trans hmem.2.2.2.2.2 (le_max_left _ _)⟩

theorem foldl_join_mem (p : Vec3) :
    ∀ (shapes : List Shape) (b0 : AABB),
      ((∃ b0x, b0 = some b0x ∧ Box.mem p b0x) ∨
        (∃ sh ∈ shapes, Box.mem p sh.aabb)) →
      ∃ bx, shapes.foldl (fun b s => AABB.join b (some s.aabb)) b0 = some bx ∧
        Box.mem p bx := by
  intro shapes
  induction shapes with
  | nil =>
    intro b0 hmem
    rcases hmem with ⟨b0x, hb0, hm⟩ | ⟨sh, hsh, -⟩
    · exact ⟨b0x, hb0, hm⟩
    · exact absurd hsh (List.not_mem_nil sh)
  | cons s rest ih =>
    intro b0 hmem
    rw [List.foldl_cons]
    rcases hmem with ⟨b0x, hb0, hm⟩ | ⟨sh, hsh, hm⟩
    · obtain ⟨bx, hbx, hmx⟩ := join_mem_mono p b0 b0x hb0 hm (some s.aabb)
      exact ih _ (Or.inl ⟨bx, hbx, hmx⟩)
    · rcases List.mem_cons.mp hsh with rfl | hrest
      · obtain ⟨bx, hbx, hmx⟩ := join_some_mem p sh.aabb hm b0
        exact ih _ (Or.inl ⟨bx, hbx, hmx⟩)
      · exact ih _ (Or.inr ⟨sh, hrest, hm⟩)

/-- A successful triangle intersection forces the (semi-infinite) ray to
hit the triangle's bounding box, given a nonnegative t_min. -/
theorem tri_hit_raybox (m : TriangleMesh) (id : ℕ) (ray : Ray) (h0 h : Hit)
    (ht0 : 0 ≤ ray.tMin)
    (hres : Triangle.intersect m id ray h0 = .hit h) :
    rayHitsBox ray (Triangle.aabb m id) := by
  obtain ⟨htpos, hmem⟩ := tri_hit_box m id ray h0 h ht0 hres
  exact ⟨triT m id ray, htpos, hmem⟩

/-- The inner scan over the traversal's surviving candidates computes
the same fold as the unfiltered brute-force scan, for all-triangle
candidate lists: filtered-out shapes cannot intersect. -/
theorem l2Scan_eq_fold (r : Ray) (prim : Primitive) (ht0 : 0 ≤ r.tMin) :
    ∀ (shapes : List Shape) (st : Bool × RVal × Hit),
      (∀ sh ∈ shapes, ∃ m id, sh = Shape.triangle m id) →
      l2Scan r prim (bvhTraverse r (fun sh => some sh.aabb) shapes) st =
        some (shapes.foldl (fun s sh => bruteStep r s (prim, sh)) st) := by
  intro shapes
  induction shapes with
  | nil =>
    intro st _
    rfl
  | cons sh rest ih =>
    intro st htri
    obtain ⟨m, id, rfl⟩ := htri sh (List.mem_cons_self sh rest)
    have htri' : ∀ s ∈ rest, ∃ m id, s = Shape.triangle m id :=
      fun s hs => htri s (List.mem_cons_of_mem _ hs)
    rw [List.foldl_cons]
    by_cases hd : rayHitsAABB r (some (Shape.triangle m id).aabb)
    · have hkeep : bvhTraverse r (fun sh => some sh.aabb)
          (Shape.triangle m id :: rest) =
          Shape.triangle m id :: bvhTraverse r (fun sh => some sh.aabb) rest := by
        simp [bvhTraverse, List.filter_cons, hd]
      rw [hkeep]
      obtain ⟨anyHit, closest, best⟩ := st
      rw [l2Scan]
      rcases hres : Shape.intersect (Shape.triangle m id) r Hit.default with
        _ | _ | tmp <;> dsimp only
      · exact absurd hres (tri_no_crash m id r Hit.default)
      · rw [show bruteStep r (anyHit, closest, best)
          (prim, Shape.triangle m id) = (anyHit, closest, best) from by
            unfold bruteStep
            rw [hres]]
        exact ih _ htri'
      · unfold bruteStep
        rw [hres]
        dsimp only
        by_cases hf : tmp.front = true
        · rw [if_pos hf, if_pos hf]
          by_cases hcl : tmp.t < closest
          · rw [if_pos hcl, if_pos hcl]
            exact ih _ htri'
          · rw [if_neg hcl, if_neg hcl]
            exact ih _ htri'
        · rw [if_neg hf, if_neg hf]
          exact ih _ htri'
    · have hdrop : bvhTraverse r (fun sh => some sh.aabb)
          (Shape.triangle m id :: rest) =
          bvhTraverse r (fun sh => some sh.aabb) rest := by
        simp [bvhTraverse, List.filter_cons, hd]
      rw [hdrop]
      have hmiss : Shape.intersect (Shape.triangle m id) r Hit.default = .miss := by
        rcases hres : Shape.intersect (Shape.triangle m id) r Hit.default with
          _ | _ | tmp
        · exact absurd hres (tri_no_crash m id r Hit.default)
        · rfl
        · exact absurd (tri_hit_raybox m id r Hit.default tmp ht0 hres) hd
      rw [show bruteStep r st (prim, Shape.triangle m id) = st from by
        unfold bruteStep
        rw [hmiss]]
      exact ih _ htri'

/-- When a shape list consists of triangles none of which intersects the
ray, the brute-force fold leaves the state unchanged. -/
theorem fold_noop (r : Ray) (prim : Primitive) :
    ∀ (shapes : List Shape) (st : Bool × RVal × Hit),
      (∀ sh ∈ shapes, Shape.intersect sh r Hit.default = .miss) →
      shapes.foldl (fun s sh => bruteStep r s (prim, sh)) st = st := by
  intro shapes
  induction shapes with
  | nil => intro st _; rfl
  | cons sh rest ih =>
    intro st hmiss
    rw [List.foldl_cons]
    rw [show bruteStep r st (prim, sh) = st from by
      unfold bruteStep
      rw [hmiss sh (List.mem_cons_self sh rest)]]
    exact ih _ fun s hs => hmiss s (List.mem_cons_of_mem _ hs)

theorem l1Scan_append (r : Ray) :
    ∀ (xs ys : List L1Node) (st : Bool × RVal × Hit),
      l1Scan r (xs ++ ys) st =
        match l1Scan r xs st with
        | Option.none => none
        | Option.some st2 => l1Scan r ys st2 := by
  intro xs
  induction xs with
  | nil =>
    intro ys st
    rfl
  | cons x rest ih =>
    intro ys st
    rw [List.cons_append, l1Scan, l1Scan]
    cases hp : x.primitive with
    | empty => rfl
    | camera c => rfl
    | sphere c rad => rfl
    | triangleMesh m =>
      dsimp only
      rcases l2Scan (transformRay m.worldToObject r) (Primitive.triangleMesh m)
          (bvhTraverse (transformRay m.worldToObject r) (fun sh => some sh.aabb)
            x.l2nodes) st with _ | st2 <;> dsimp only
      exact ih ys st2

theorem collectL1_nil : collectL1 [] = [] := by
  rw [collectL1.eq_def]

theorem collectL1_cons (n : SceneNode) (rest : List SceneNode) :
    collectL1 (n :: rest) =
      (if (nodeL2 n.prim).isEmpty then ([] : List L1Node)
       else [⟨nodeL2 n.prim, nodeBound n.prim, n.prim⟩]) ++
        collectL1 (rest ++ n.children) := by
  rw [collectL1.eq_def]

theorem sceneShapesQ_nil : sceneShapesQ [] = [] := by
  rw [sceneShapesQ.eq_def]

theorem sceneShapesQ_cons (n : SceneNode) (rest : List SceneNode) :
    sceneShapesQ (n :: rest) =
      (nodeL2 n.prim).map (fun sh => (n.prim, sh)) ++
        sceneShapesQ (rest ++ n.children) := by
  rw [sceneShapesQ.eq_def]

theorem collectPrimsQ_cons (n : SceneNode) (rest : List SceneNode) :
    collectPrimsQ (n :: rest) = n.prim :: collectPrimsQ (rest ++ n.children) := by
  rw [collectPrimsQ.eq_def]

theorem bvhTraverse_append {α : Type} (r : Ray) (boxOf : α → AABB)
    (xs ys : List α) :
    bvhTraverse r boxOf (xs ++ ys) =
      bvhTraverse r boxOf xs ++ bvhTraverse r boxOf ys := by
  simp [bvhTraverse, List.filter_append]

theorem nodeL2_triangles (m : TriangleMesh) :
    ∀ sh ∈ nodeL2 (Primitive.triangleMesh m), ∃ mm id, sh = Shape.triangle mm id := by
  intro sh hsh
  unfold nodeL2 at hsh
  obtain ⟨i, -, rfl⟩ := List.mem_map.mp hsh
  exact ⟨m, i, rfl⟩

/-- Queue-level equivalence of the traversal scans with the brute-force
fold, for scenes whose primitives avoid the todo arms and carry identity
transforms. -/
theorem queue_equiv (r : Ray) (ht0 : 0 ≤ r.tMin) :
    ∀ (k : ℕ) (q : List SceneNode), queueSize q ≤ k →
      (∀ pr ∈ collectPrimsQ q, PrimOK pr) →
      ∀ st, l1Scan r (bvhTraverse r L1Node.bound (collectL1 q)) st =
        some ((sceneShapesQ q).foldl (bruteStep r) st) := by
  intro k
  induction k with
  | zero =>
    intro q hk hOK st
    have hq : q = [] := by
      cases q with
      | nil => rfl
      | cons n rest =>
        exfalso
        have h1 := queueSize_cons n rest
        cases n with
        | mk p cs =>
          rw [SceneNode.size_mk] at h1
          omega
    subst hq
    rw [collectL1_nil, sceneShapesQ_nil]
    rfl
  | succ k ih =>
    intro q hk hOK st
    cases q with
    | nil =>
      rw [collectL1_nil, sceneShapesQ_nil]
      rfl
    | cons n rest =>
      have hsize : queueSize (rest ++ n.children) ≤ k := by
        have := queueSize_tail_lt n rest
        omega
      have hOKhead : PrimOK n.prim := by
        apply hOK
        rw [collectPrimsQ_cons]
        exact List.mem_cons_self _ _
      have hOKtail : ∀ pr ∈ collectPrimsQ (rest ++ n.children), PrimOK pr := by
        intro pr hpr
        apply hOK
        rw [collectPrimsQ_cons]
        exact List.mem_cons_of_mem _ hpr
      rw [collectL1_cons, sceneShapesQ_cons, List.foldl_append]
      cases hp : n.prim with
      | empty =>
        rw [show nodeL2 Primitive.empty = [] from rfl]
        simp only [List.isEmpty_nil, if_true, List.nil_append, List.map_nil,
          List.foldl_nil]
        exact ih (rest ++ n.children) hsize hOKtail st
      | camera c =>
        rw [show nodeL2 (Primitive.camera c) = [] from rfl]
        simp only [List.isEmpty_nil, if_true, List.nil_append, List.map_nil,
          List.foldl_nil]
        exact ih (rest ++ n.children) hsize hOKtail st
      | sphere c rad =>
        rw [hp] at hOKhead
        exact hOKhead.elim
      | triangleMesh m =>
        rw [hp] at hOKhead
        have hid : m.worldToObject = Affine.identity := hOKhead
        by_cases hne : (nodeL2 (Primitive.triangleMesh m)).isEmpty
        · rw [if_pos hne, List.isEmpty_iff.mp hne]
          simp only [List.nil_append, List.map_nil, List.foldl_nil]
          exact ih (rest ++ n.children) hsize hOKtail st
        · rw [if_neg hne]
          rw [bvhTraverse_append, l1Scan_append]
          by_cases hd : rayHitsAABB r (nodeBound (Primitive.triangleMesh m))
          · have hkeep : bvhTraverse r L1Node.bound
                [⟨nodeL2 (Primitive.triangleMesh m),
                  nodeBound (Primitive.triangleMesh m), Primitive.triangleMesh m⟩] =
                [⟨nodeL2 (Primitive.triangleMesh m),
                  nodeBound (Primitive.triangleMesh m), Primitive.triangleMesh m⟩] := by
              simp [bvhTraverse, decide_eq_true hd]
            rw [hkeep, l1Scan]
            dsimp only
            rw [hid, transformRay_identity]
            rw [l2Scan_eq_fold r (Primitive.triangleMesh m) ht0
              (nodeL2 (Primitive.triangleMesh m)) st (nodeL2_triangles m)]
            show l1Scan r (bvhTraverse r L1Node.bound (collectL1 (rest ++ n.children)))
                (List.foldl (fun s sh => bruteStep r s (Primitive.triangleMesh m, sh)) st
                  (nodeL2 (Primitive.triangleMesh m))) = _
            rw [ih (rest ++ n.children) hsize hOKtail _]
            simp only [List.foldl_map]
          · have hdrop : bvhTraverse r L1Node.bound
                [⟨nodeL2 (Primitive.triangleMesh m),
                  nodeBound (Primitive.triangleMesh m), Primitive.triangleMesh m⟩] =
                [] := by
              simp [bvhTraverse, hd]
            rw [hdrop]
            rw [show l1Scan r [] st = some st from rfl]
            dsimp only
            have hnoop : ∀ sh ∈ nodeL2 (Primitive.triangleMesh m),
                Shape.intersect sh r Hit.default = .miss := by
              intro sh hsh
              obtain ⟨mm, i, rfl⟩ := nodeL2_triangles m sh hsh
              rcases hres : Shape.intersect (Shape.triangle mm i) r Hit.default with
                _ | _ | tmp
              · exact absurd hres (tri_no_crash mm i r Hit.default)
              · rfl
              · exfalso
                obtain ⟨htpos, hmem⟩ := tri_hit_box mm i r Hit.default tmp ht0 hres
                obtain ⟨bx, hbx, hmemx⟩ := foldl_join_mem (triHitP mm i r)
                  (nodeL2 (Primitive.triangleMesh m)) none
                  (Or.inr ⟨Shape.triangle mm i, hsh, hmem⟩)
                apply hd
                rw [show nodeBound (Primitive.triangleMesh m) =
                  (nodeL2 (Primitive.triangleMesh m)).foldl
                    (fun b s => AABB.join b (some s.aabb)) none from rfl, hbx]
                exact ⟨triT mm i r, htpos, hmemx⟩
            rw [List.foldl_map, fold_noop r (Primitive.triangleMesh m) _ st hnoop]
            exact ih (rest ++ n.children) hsize hOKtail st

theorem collectPrimsQ_nil : collectPrimsQ [] = [] := by
  rw [collectPrimsQ.eq_def]

/-- C1 (amended): on scenes whose primitives all avoid the todo arms of
the L1 loop (no sphere primitives) and whose meshes carry the identity
world_to_object transform, and for rays with a nonnegative t_min,
Accelerator.intersect completes and returns exactly the brute-force
linear scan over every shape of the scene: the same any-hit flag and
the same final hit record, with the closest front-facing hit recorded
and its primitive and shape back-references set. -/
theorem C1_accel_equiv_brute (scene : SceneEngine) (r : Ray) (hit0 : Hit)
    (hOK : ∀ pr ∈ collectPrimsQ [scene.root], PrimOK pr) (ht0 : 0 ≤ r.tMin) :
    (Accelerator.build scene).intersect r hit0 =
      some (bruteForce (sceneShapes scene) r hit0) := by
  show (match l1Scan r (bvhTraverse r L1Node.bound (collectL1 [scene.root]))
      (false, ⊤, hit0) with
    | Option.none => none
    | Option.some (anyHit, _, h) => some (anyHit, h)) = _
  rw [queue_equiv r ht0 (queueSize [scene.root]) [scene.root] le_rfl hOK
    (false, ⊤, hit0)]
  rfl

theorem C1_accel_equiv_brute_witness :
    (Accelerator.build wscene).intersect wray Hit.default =
      some (bruteForce (sceneShapes wscene) wray Hit.default) :=
  C1_accel_equiv_brute wscene wray Hit.default
    (by
      intro pr hpr
      rw [show wscene.root = SceneNode.mk (.triangleMesh wmesh) [] from rfl,
        collectPrimsQ_cons,
        show ([] : List SceneNode) ++ (SceneNode.mk (.triangleMesh wmesh) []).children
          = [] from rfl, collectPrimsQ_nil] at hpr
      rw [List.mem_singleton] at hpr
      subst hpr
      exact rfl)
    (le_of_eq rfl)
